/-
Verification of the room-swap allocation and negotiation engine
(`src/flexible_app.py` and `src/swap_app.py`).

The engine's mutable globals (PEOPLE, ROOMS, ASSIGNMENT, PRICES, STATES,
AVAILABLE_NAMES, PENDING_SWAPS, TOTAL_RENT) are embedded as one record
`AppState`; Python dicts become association lists (insertion-ordered, which
matches CPython dict semantics), and the handler branches of
`RoomSwapHandler.do_POST` / `do_GET` become pure state-transformer functions
returning `Option HErr × AppState` (the error reported, if any, together with
the state the globals are left in).  Python floats are embedded as exact
rationals; `round(x, 2)` becomes `round2` (round half to even on exact
rationals, which is the documented rounding mode of Python's `round`).
-/
import Mathlib

/-- Association-list lookup, first match wins: Python `d[k]` / `d.get(k)`. -/
def lookupD {β : Type} : List (String × β) → String → Option β
  | [], _ => none
  | p :: rest, key => if p.1 = key then some p.2 else lookupD rest key

/-- Whether a key is present: Python `k in d`. -/
def containsKeyD {β : Type} (m : List (String × β)) (k : String) : Bool :=
  m.any (fun p => p.1 == k)

/-- Dict assignment `d[k] = v`: overwrite in place if the key is present
(keeping its position, as CPython does), otherwise append. -/
def setD {β : Type} (m : List (String × β)) (k : String) (v : β) : List (String × β) :=
  if containsKeyD m k then m.map (fun p => if p.1 = k then (k, v) else p)
  else m ++ [(k, v)]

/-- The keys of a dict, in order. -/
def keysOf {β : Type} (m : List (String × β)) : List String :=
  m.map Prod.fst

/-- The values of a dict, in order: Python `d.values()`. -/
def valuesOf {β : Type} (m : List (String × β)) : List β :=
  m.map Prod.snd

/-- `sum(d.values())` for a price dict. -/
def sumVals (m : List (String × ℚ)) : ℚ :=
  (valuesOf m).sum

/-- Python `round(q, 2)`: round to the nearest multiple of 1/100, ties to the
even multiple (banker's rounding, the documented behaviour of `round`). -/
def round2 (q : ℚ) : ℚ :=
  let t : ℚ := 100 * q
  let z : ℤ :=
    if t - (⌊t⌋ : ℚ) < 1/2 then ⌊t⌋
    else if 1/2 < t - (⌊t⌋ : ℚ) then ⌊t⌋ + 1
    else if ⌊t⌋ % 2 = 0 then ⌊t⌋ else ⌊t⌋ + 1
  (z : ℚ) / 100

/-- Python `s.strip()` on the character list of `s`: drop leading and
trailing whitespace. -/
def trimChars (cs : List Char) : List Char :=
  ((cs.dropWhile Char.isWhitespace).reverse.dropWhile Char.isWhitespace).reverse

/-- Value of a digit string, most significant first. -/
def digitsVal (cs : List Char) : ℕ :=
  cs.foldl (fun a c => 10 * a + (c.toNat - ('0').toNat)) 0

/-- All characters are decimal digits. -/
def allDigits (cs : List Char) : Bool :=
  cs.all Char.isDigit

/-- Unsigned decimal numeral `"12"`, `"12."`, `"12.5"`, `".5"`, tokenized as
(integer-part value, fraction-part value, fraction-part length). -/
def parsePartsU (cs : List Char) : Option (ℕ × ℕ × ℕ) :=
  let intPart := cs.takeWhile (fun c => c != ('.'))
  match cs.dropWhile (fun c => c != ('.')) with
  | [] =>
      if intPart.isEmpty || !(allDigits intPart) then none
      else some (digitsVal intPart, 0, 0)
  | c :: fracPart =>
      if c = ('.') then
        if (intPart.isEmpty && fracPart.isEmpty) || !(allDigits intPart)
            || !(allDigits fracPart) then none
        else some (digitsVal intPart, digitsVal fracPart, fracPart.length)
      else none

/-- Optional sign in front of an unsigned numeral; `true` means negative. -/
def parseParts (cs : List Char) : Option (Bool × ℕ × ℕ × ℕ) :=
  match cs with
  | [] => none
  | c :: rest =>
      if c = ('-') then (parsePartsU rest).map (fun p => (true, p))
      else if c = ('+') then (parsePartsU rest).map (fun p => (false, p))
      else (parsePartsU (c :: rest)).map (fun p => (false, p))

/-- The rational value of a tokenized numeral. -/
def ofParts (p : Bool × ℕ × ℕ × ℕ) : ℚ :=
  let v : ℚ := ((p.2.1 : ℤ) : ℚ) + Rat.divInt (p.2.2.1 : ℤ) ((10 ^ p.2.2.2 : ℕ) : ℤ)
  if p.1 then -v else v

/-- Python `float(s)` on the decimal numerals the application's form sends:
optional surrounding whitespace, optional sign, digits with an optional
decimal point.  (Scientific notation and the special values `inf`/`nan`,
which `float` also accepts, are not needed by any claim and are omitted.) -/
def parseFloat (s : String) : Option ℚ :=
  (parseParts (trimChars s.toList)).map ofParts

/-- A pending swap proposal: the dict
`{'proposer': …, 'target': …, 'offered_price': …}` appended by
`/propose_swap`. -/
structure Offer where
  proposer : String
  target : String
  offered_price : ℚ
deriving DecidableEq

/-- Errors the handler reports as an HTTP error page.  `keyError` stands for
an uncaught Python `KeyError` (a lookup of a missing dict key outside any
`try` block, which crashes the request). -/
inductive HErr where
  | invalidUser
  | invalidSwapRequest
  | invalidPrice
  | noSuchOffer
  | keyError
deriving DecidableEq

/-- The engine's shared global state. -/
structure AppState where
  people : List String
  rooms : List String
  assignment : List (String × String)
  prices : List (String × ℚ)
  states : List (String × Option String)
  available : List String
  pending : List Offer
  total_rent : ℚ
deriving DecidableEq

/-- `sum(PRICES.values())`. -/
def sumPrices (st : AppState) : ℚ :=
  sumVals st.prices

/-- `ROOMS = [f"unit_{i+1}" for i in range(n)]` before shuffling. -/
def genRooms (n : ℕ) : List String :=
  (List.range n).map (fun i => ("unit_") ++ Nat.repr (i + 1))

/-- `init_allocation(total_rent)` from `flexible_app.py` (lines 53-73):
builds the fresh global state.  `shuffled` is the result of
`random.shuffle(ROOMS)`, passed explicitly (a permutation of
`genRooms people.length`). -/
def init_allocation (people : List String) (shuffled : List String) (total : ℚ) :
    AppState :=
  let n : ℕ := people.length
  let assignment := people.zip shuffled
  let base : ℚ := round2 (total / (n : ℚ))
  let prices0 : List (String × ℚ) := shuffled.map (fun r => (r, base))
  let disc : ℚ := round2 (total - sumVals prices0)
  let prices :=
    if 1 / 1000000000 < |disc| then
      match shuffled.getLast? with
      | some lastRoom =>
          setD prices0 lastRoom (round2 (((lookupD prices0 lastRoom).getD 0) + disc))
      | none => prices0
    else prices0
  { people := people
    rooms := shuffled
    assignment := assignment
    prices := prices
    states := people.map (fun p => (p, none))
    available := people
    pending := []
    total_rent := total }

/-- `GET /choose?user=<name>`: claim an identity (lines 163-174 of
`flexible_app.py`).  Python's `if username and username in AVAILABLE_NAMES`
treats the empty string as falsy. -/
def choose_user (st : AppState) (user? : Option String) : Option HErr × AppState :=
  match user? with
  | some u =>
      if u ≠ ("") ∧ u ∈ st.available then
        (none, { st with available := st.available.erase u })
      else (some .invalidUser, st)
  | none => (some .invalidUser, st)

/-- `POST /set_state` (lines 192-199 of `flexible_app.py`): store the
satisfaction state when it is in the enum, silently do nothing otherwise;
the handler always answers with a redirect, never with an error. -/
def set_state (st : AppState) (username : String) (state? : Option String) :
    Option HErr × AppState :=
  match state? with
  | some s =>
      if s = ("satisfied") ∨ s = ("unsatisfied") then
        (none, { st with states := setD st.states username (some s) })
      else (none, st)
  | none => (none, st)

/-- Resolution of the offered price in `/propose_swap` (lines 208-214 of
`flexible_app.py`): blank or zero defaults to the target room's current
price; `none` is the caught `ValueError`/`KeyError`. -/
def resolveOffered (st : AppState) (target : String) (price_str : String) :
    Option ℚ :=
  if trimChars price_str.toList = [] then
    (lookupD st.assignment target).bind (lookupD st.prices)
  else
    match parseFloat price_str with
    | none => none
    | some v =>
        if v = 0 then (lookupD st.assignment target).bind (lookupD st.prices)
        else some v

/-- `POST /propose_swap` (lines 201-223 of `flexible_app.py`).  `username` is
the authenticated proposer; `target?` and `price?` are the raw form fields. -/
def propose_swap (st : AppState) (username : String)
    (target? price? : Option String) : Option HErr × AppState :=
  match target?, price? with
  | some target, some price_str =>
      if target ∈ st.people ∧ target ≠ username then
        match resolveOffered st target price_str with
        | none => (some .invalidPrice, st)
        | some offered =>
            if offered < 0 then (some .invalidPrice, st)
            else (none, { st with
              pending := st.pending ++ [⟨username, target, offered⟩] })
      else (some .invalidSwapRequest, st)
  | _, _ => (some .invalidSwapRequest, st)

/-- The matching test of the lookup loop in `/respond_swap`:
`req['proposer'] == proposer and req['target'] == username` (a `None`
proposer compares unequal to every string). -/
def offerMatches (username : String) (proposer? : Option String) (r : Offer) :
    Bool :=
  some r.proposer == proposer? && r.target == username

/-- First index satisfying `p`, in insertion order — the
`for idx, req in enumerate(PENDING_SWAPS): … break` loop. -/
def findFirstIdx (p : Offer → Bool) : List Offer → Option ℕ
  | [] => none
  | r :: rest => if p r then some 0 else (findFirstIdx p rest).map (· + 1)

/-- Whether a remaining offer references a room of the settled pair through
the pre-swap assignment (`involves_rooms` in the accept branch). -/
def involvesRooms (old_assignment : List (String × String))
    (proposer_room target_room : String) (r : Offer) : Bool :=
  let pr := lookupD old_assignment r.proposer
  let tr := lookupD old_assignment r.target
  pr == some proposer_room || pr == some target_room
    || tr == some proposer_room || tr == some target_room

/-- `POST /respond_swap` (lines 225-268 of `flexible_app.py`, identically
lines 203-261 of `swap_app.py`).  `username` is the authenticated target;
`proposer?` and `action?` are the raw form fields.  The offer is popped
before anything else, so the `keyError` outcomes keep the shrunken pending
list, exactly as the crashed Python handler would. -/
def respond_swap (st : AppState) (username : String)
    (proposer? action? : Option String) : Option HErr × AppState :=
  match findFirstIdx (offerMatches username proposer?) st.pending with
  | none => (some .noSuchOffer, st)
  | some idx =>
      match st.pending[idx]? with
      | none => (some .keyError, st)
      | some req =>
          let offered := req.offered_price
          let stP := { st with pending := st.pending.eraseIdx idx }
          let old_assignment := st.assignment
          match proposer? with
          | none => (some .keyError, stP)
          | some proposer =>
              match lookupD old_assignment proposer,
                  lookupD old_assignment username with
              | some proposer_room, some target_room =>
                  match lookupD st.prices proposer_room,
                      lookupD st.prices target_room with
                  | some pI, some pJ =>
                      if action? == some ("accept") then
                        let newAssign :=
                          setD (setD old_assignment proposer target_room)
                            username proposer_room
                        let prices1 := setD stP.prices target_room (round2 offered)
                        let prices2 :=
                          setD prices1 proposer_room (round2 (pI + pJ - offered))
                        (none, { stP with
                          assignment := newAssign
                          prices := prices2
                          pending := stP.pending.filter
                            (fun r => !(involvesRooms old_assignment
                              proposer_room target_room r)) })
                      else
                        let total_pair := pI + pJ
                        (none, { stP with
                          prices := setD (setD stP.prices target_room (round2 offered))
                            proposer_room (round2 (total_pair - offered)) })
                  | _, _ => (some .keyError, stP)
              | _, _ => (some .keyError, stP)

/-- The states the running application can be in: `init_allocation` is called
once at startup (with the participant list validated by the configuration
wizard: non-empty, duplicates removed) and every later mutation goes through
one of the four handler branches, performed by an authenticated participant.
Failed requests are included — they too leave the globals in some state. -/
inductive Reachable : AppState → Prop where
  | init (people shuffled : List String) (total : ℚ)
      (hne : people ≠ []) (hnd : people.Nodup)
      (hperm : shuffled.Perm (genRooms people.length)) (hrnd : shuffled.Nodup) :
      Reachable (init_allocation people shuffled total)
  | choose (st : AppState) (u? : Option String) (hst : Reachable st) :
      Reachable (choose_user st u?).2
  | set_st (st : AppState) (u : String) (s? : Option String)
      (hst : Reachable st) (hu : u ∈ st.people) :
      Reachable (set_state st u s?).2
  | propose (st : AppState) (u : String) (t? p? : Option String)
      (hst : Reachable st) (hu : u ∈ st.people) :
      Reachable (propose_swap st u t? p?).2
  | respond (st : AppState) (u : String) (p? a? : Option String)
      (hst : Reachable st) (hu : u ∈ st.people) :
      Reachable (respond_swap st u p? a?).2

/-- A rational that is a whole number of cents. -/
def isCents (q : ℚ) : Prop :=
  ∃ k : ℤ, q = (k : ℚ) / 100

/-- Reachability restricted to whole-cent money: the configured total rent is
a whole number of cents and every proposal is made at a whole-cent price.
(The unrestricted `Reachable` admits sub-cent offers such as `price=0.005`,
which the form's `step="0.01"` merely suggests against.) -/
inductive ReachableC : AppState → Prop where
  | init (people shuffled : List String) (total : ℚ)
      (hne : people ≠ []) (hnd : people.Nodup)
      (hperm : shuffled.Perm (genRooms people.length)) (hrnd : shuffled.Nodup)
      (hcent : isCents total) :
      ReachableC (init_allocation people shuffled total)
  | choose (st : AppState) (u? : Option String) (hst : ReachableC st) :
      ReachableC (choose_user st u?).2
  | set_st (st : AppState) (u : String) (s? : Option String)
      (hst : ReachableC st) (hu : u ∈ st.people) :
      ReachableC (set_state st u s?).2
  | propose (st : AppState) (u : String) (t? p? : Option String)
      (hst : ReachableC st) (hu : u ∈ st.people)
      (hc : ∀ o ∈ (propose_swap st u t? p?).2.pending, isCents o.offered_price) :
      ReachableC (propose_swap st u t? p?).2
  | respond (st : AppState) (u : String) (p? a? : Option String)
      (hst : ReachableC st) (hu : u ∈ st.people) :
      ReachableC (respond_swap st u p? a?).2

/-- The state written by the decline branch of `/respond_swap`: the matched
offer is consumed and the pair's two prices are rewritten around the offered
price. -/
def declineUpdate (st : AppState) (idx : ℕ) (I J : String) (pI pJ offered : ℚ) :
    AppState :=
  { st with
    pending := st.pending.eraseIdx idx
    prices := setD (setD st.prices J (round2 offered)) I (round2 (pI + pJ - offered)) }

/-- The state written by the accept branch of `/respond_swap`: additionally
the two participants exchange rooms and every remaining offer touching one of
the pair's pre-swap rooms is pruned. -/
def acceptUpdate (st : AppState) (idx : ℕ) (proposer u I J : String)
    (pI pJ offered : ℚ) : AppState :=
  { st with
    assignment := setD (setD st.assignment proposer J) u I
    prices := setD (setD st.prices J (round2 offered)) I (round2 (pI + pJ - offered))
    pending := (st.pending.eraseIdx idx).filter
      (fun r => !(involvesRooms st.assignment I J r)) }

/-- Structural well-formedness: the participant list is a non-empty
duplicate-free list, the assignment is a bijection onto the duplicate-free
room list, the price dict is keyed exactly by the rooms, and every pending
offer joins two distinct participants. -/
def StructInv (st : AppState) : Prop :=
  st.people ≠ [] ∧ st.people.Nodup ∧ st.rooms.Nodup ∧
  keysOf st.assignment = st.people ∧
  (valuesOf st.assignment).Perm st.rooms ∧
  keysOf st.prices = st.rooms ∧
  (∀ o ∈ st.pending, o.proposer ∈ st.people ∧ o.target ∈ st.people ∧
    o.proposer ≠ o.target)

/-- Whole-cent soundness: the configured total, every price and every pending
offer is a whole number of cents, and the prices sum to the total rent. -/
def CentInv (st : AppState) : Prop :=
  isCents st.total_rent ∧ (∀ p ∈ valuesOf st.prices, isCents p) ∧
  (∀ o ∈ st.pending, isCents o.offered_price) ∧
  sumPrices st = st.total_rent

/-- The engine state after `initialize(100, [A, B, C])` with the identity
shuffle — the concrete rounding scenario of the specification: base price
`round(100/3, 2) = 33.33` and the leftover cent on the last room. -/
def exSt0 : AppState :=
  { people := ["A", "B", "C"]
    rooms := [("unit_1"), ("unit_2"), ("unit_3")]
    assignment := [(("A"), ("unit_1")), (("B"), ("unit_2")), (("C"), ("unit_3"))]
    prices := [(("unit_1"), 3333/100), (("unit_2"), 3333/100), (("unit_3"), 1667/50)]
    states := [(("A"), none), (("B"), none), (("C"), none)]
    available := ["A", "B", "C"]
    pending := []
    total_rent := 100 }

/-- `exSt0` after `proposeSwap` by A targeting C at price 1000. -/
def exStP1000 : AppState :=
  { exSt0 with pending := [⟨("A"), ("C"), 1000⟩] }

/-- `exStP1000` after C accepts: A and C exchange rooms, `unit_3` is priced
at the offer and `unit_1` at the conservation remainder — which is negative,
since the offer exceeded the pair's combined price. -/
def exStAcc : AppState :=
  { exSt0 with
    assignment := [(("A"), ("unit_3")), (("B"), ("unit_2")), (("C"), ("unit_1"))]
    prices := [(("unit_1"), -93333/100), (("unit_2"), 3333/100), (("unit_3"), 1000)] }

/-- `exSt0` after `proposeSwap` by A targeting C at the sub-cent price
`0.005` (half a cent). -/
def exStPHalf : AppState :=
  { exSt0 with pending := [⟨("A"), ("C"), 1/200⟩] }

/-- `exStPHalf` after C declines: both prices of the pair are rewritten
around the half-cent offer and one cent of rent evaporates — the price sum
is 99.99 against a total rent of 100. -/
def exStDec : AppState :=
  { exSt0 with
    prices := [(("unit_1"), 6666/100), (("unit_2"), 3333/100), (("unit_3"), 0)] }

section AssocLemmas

variable {β : Type}

theorem containsKeyD_iff (m : List (String × β)) (k : String) :
    containsKeyD m k = true ↔ k ∈ keysOf m := by
  induction m with
  | nil => simp [containsKeyD, keysOf]
  | cons p rest ih =>
      simp only [containsKeyD, keysOf, List.any_cons, List.map_cons, List.mem_cons,
        Bool.or_eq_true, beq_iff_eq] at *
      constructor
      · rintro (h | h)
        · exact Or.inl h.symm
        · exact Or.inr (ih.mp h)
      · rintro (h | h)
        · exact Or.inl h.symm
        · exact Or.inr (ih.mpr h)

theorem keysOf_setD (m : List (String × β)) (k : String) (v : β)
    (hk : k ∈ keysOf m) : keysOf (setD m k v) = keysOf m := by
  unfold setD
  rw [if_pos ((containsKeyD_iff m k).mpr hk)]
  unfold keysOf
  rw [List.map_map]
  apply List.map_congr_left
  intro p _
  by_cases h : p.1 = k
  · simp [h]
  · simp [h]

theorem lookupD_replace_self (m : List (String × β)) (k : String) (v : β)
    (hk : k ∈ keysOf m) :
    lookupD (m.map (fun p => if p.1 = k then (k, v) else p)) k = some v := by
  induction m with
  | nil => simp [keysOf] at hk
  | cons p rest ih =>
      simp only [keysOf, List.map_cons, List.mem_cons] at hk
      by_cases h : p.1 = k
      · rw [List.map_cons, if_pos h]
        simp [lookupD]
      · rw [List.map_cons, if_neg h]
        simp only [lookupD, if_neg h]
        exact ih (hk.resolve_left (fun e => h e.symm))

theorem lookupD_setD_self (m : List (String × β)) (k : String) (v : β)
    (hk : k ∈ keysOf m) : lookupD (setD m k v) k = some v := by
  unfold setD
  rw [if_pos ((containsKeyD_iff m k).mpr hk)]
  exact lookupD_replace_self m k v hk

theorem lookupD_replace_ne (m : List (String × β)) (k k' : String) (v : β)
    (hne : k' ≠ k) :
    lookupD (m.map (fun p => if p.1 = k then (k, v) else p)) k' = lookupD m k' := by
  induction m with
  | nil => simp
  | cons p rest ih =>
      by_cases h : p.1 = k
      · rw [List.map_cons, if_pos h]
        have h1 : ¬ (k = k') := fun e => hne e.symm
        have h2 : ¬ (p.1 = k') := fun e => hne (e.symm.trans h)
        simp only [lookupD, if_neg h1, if_neg h2]
        exact ih
      · rw [List.map_cons, if_neg h]
        simp only [lookupD]
        by_cases h2 : p.1 = k'
        · rw [if_pos h2, if_pos h2]
        · rw [if_neg h2, if_neg h2]
          exact ih

theorem lookupD_append_ne (m : List (String × β)) (k k' : String) (v : β)
    (hne : k' ≠ k) : lookupD (m ++ [(k, v)]) k' = lookupD m k' := by
  induction m with
  | nil => simp [lookupD, Ne.symm hne]
  | cons p rest ih =>
      simp only [List.cons_append, lookupD]
      by_cases h2 : p.1 = k'
      · rw [if_pos h2, if_pos h2]
      · rw [if_neg h2, if_neg h2]
        exact ih

theorem lookupD_setD_ne (m : List (String × β)) (k k' : String) (v : β)
    (hne : k' ≠ k) : lookupD (setD m k v) k' = lookupD m k' := by
  unfold setD
  by_cases hc : containsKeyD m k
  · rw [if_pos hc]
    exact lookupD_replace_ne m k k' v hne
  · rw [if_neg hc]
    exact lookupD_append_ne m k k' v hne

end AssocLemmas

section AssocLemmas2

variable {β : Type}

theorem replace_id (m : List (String × β)) (k : String) (v : β)
    (hk : k ∉ keysOf m) : m.map (fun p => if p.1 = k then (k, v) else p) = m := by
  induction m with
  | nil => simp
  | cons p rest ih =>
      simp only [keysOf, List.map_cons, List.mem_cons] at hk
      rw [List.map_cons, if_neg (fun e => hk (Or.inl e.symm)), ih (fun hm => hk (Or.inr hm))]

theorem lookupD_mem (m : List (String × β)) (k : String) (v : β)
    (h : lookupD m k = some v) : (k, v) ∈ m := by
  induction m with
  | nil => simp [lookupD] at h
  | cons p rest ih =>
      simp only [lookupD] at h
      by_cases hp : p.1 = k
      · rw [if_pos hp] at h
        simp only [Option.some.injEq] at h
        have hpe : p = (k, v) := by
          cases p
          simp only at hp h
          rw [hp, h]
        rw [hpe]
        exact List.mem_cons_self _ _
      · rw [if_neg hp] at h
        exact List.mem_cons_of_mem _ (ih h)

theorem lookupD_mem_keys (m : List (String × β)) (k : String) (v : β)
    (h : lookupD m k = some v) : k ∈ keysOf m :=
  List.mem_map_of_mem Prod.fst (lookupD_mem m k v h)

theorem lookupD_mem_values (m : List (String × β)) (k : String) (v : β)
    (h : lookupD m k = some v) : v ∈ valuesOf m :=
  List.mem_map_of_mem Prod.snd (lookupD_mem m k v h)

theorem lookupD_isSome_of_mem_keys (m : List (String × β)) (k : String)
    (hk : k ∈ keysOf m) : ∃ v, lookupD m k = some v := by
  induction m with
  | nil => simp [keysOf] at hk
  | cons p rest ih =>
      simp only [keysOf, List.map_cons, List.mem_cons] at hk
      by_cases h : p.1 = k
      · exact ⟨p.2, by simp [lookupD, h]⟩
      · obtain ⟨v, hv⟩ := ih (hk.resolve_left (fun e => h e.symm))
        exact ⟨v, by simp [lookupD, h, hv]⟩

theorem setD_decomp (m : List (String × β)) (k : String) (w v : β)
    (hnd : (keysOf m).Nodup) (h : lookupD m k = some w) :
    ∃ l1 l2, m = l1 ++ (k, w) :: l2 ∧ k ∉ keysOf l1 ∧ k ∉ keysOf l2 ∧
      setD m k v = l1 ++ (k, v) :: l2 := by
  induction m with
  | nil => simp [lookupD] at h
  | cons p rest ih =>
      have hck : containsKeyD (p :: rest) k = true :=
        (containsKeyD_iff _ k).mpr (lookupD_mem_keys _ k w h)
      simp only [keysOf, List.map_cons, List.nodup_cons] at hnd
      simp only [lookupD] at h
      by_cases hp : p.1 = k
      · rw [if_pos hp] at h
        simp only [Option.some.injEq] at h
        have hkr : k ∉ keysOf rest := fun hm => hnd.1 (hp ▸ hm)
        refine ⟨[], rest, ?_, by simp [keysOf], hkr, ?_⟩
        · cases p
          simp only at hp h
          rw [hp, h]
          simp
        · unfold setD
          rw [if_pos hck, List.map_cons, if_pos hp, replace_id rest k v hkr]
          simp
      · rw [if_neg hp] at h
        obtain ⟨l1, l2, hm, hk1, hk2, hs⟩ := ih hnd.2 h
        have hkk : k ∈ keysOf rest := lookupD_mem_keys _ k w h
        refine ⟨p :: l1, l2, by rw [hm]; simp, ?_, hk2, ?_⟩
        · simp only [keysOf, List.map_cons, List.mem_cons]
          rintro (he | hm1)
          · exact hp he.symm
          · exact hk1 hm1
        · unfold setD
          rw [if_pos hck, List.map_cons, if_neg hp]
          unfold setD at hs
          rw [if_pos ((containsKeyD_iff _ k).mpr hkk)] at hs
          rw [hs]
          simp

theorem sumVals_setD (m : List (String × ℚ)) (k : String) (w v : ℚ)
    (hnd : (keysOf m).Nodup) (h : lookupD m k = some w) :
    sumVals (setD m k v) = sumVals m - w + v := by
  obtain ⟨l1, l2, hm, _, _, hs⟩ := setD_decomp m k w v hnd h
  rw [hs, hm]
  simp only [sumVals, valuesOf, List.map_append, List.map_cons, List.sum_append,
    List.sum_cons]
  ring

theorem valuesOf_setD_perm (m : List (String × β)) (k : String) (w v : β)
    (hnd : (keysOf m).Nodup) (h : lookupD m k = some w) :
    (w :: valuesOf (setD m k v)).Perm (v :: valuesOf m) := by
  obtain ⟨l1, l2, hm, _, _, hs⟩ := setD_decomp m k w v hnd h
  rw [hs, hm]
  simp only [valuesOf, List.map_append, List.map_cons]
  refine List.Perm.trans (List.Perm.cons w List.perm_middle) ?_
  refine List.Perm.trans (List.Perm.swap v w _) ?_
  exact List.Perm.cons v List.perm_middle.symm

theorem lookupD_inj (m : List (String × β)) (a b : String) (x : β)
    (hk : (keysOf m).Nodup) (hv : (valuesOf m).Nodup)
    (ha : lookupD m a = some x) (hb : lookupD m b = some x) : a = b := by
  induction m with
  | nil => simp [lookupD] at ha
  | cons p rest ih =>
      simp only [keysOf, valuesOf, List.map_cons, List.nodup_cons] at hk hv
      simp only [lookupD] at ha hb
      by_cases hpa : p.1 = a
      · rw [if_pos hpa] at ha
        simp only [Option.some.injEq] at ha
        by_cases hpb : p.1 = b
        · rw [← hpa, hpb]
        · rw [if_neg hpb] at hb
          exact absurd (ha ▸ lookupD_mem_values rest b x hb) hv.1
      · rw [if_neg hpa] at ha
        by_cases hpb : p.1 = b
        · rw [if_pos hpb] at hb
          simp only [Option.some.injEq] at hb
          exact absurd (hb ▸ lookupD_mem_values rest a x ha) hv.1
        · rw [if_neg hpb] at hb
          exact ih hk.2 hv.2 ha hb

theorem valuesOf_setD_subset (m : List (String × β)) (k : String) (v x : β)
    (hx : x ∈ valuesOf (setD m k v)) : x = v ∨ x ∈ valuesOf m := by
  unfold setD at hx
  by_cases hc : containsKeyD m k
  · rw [if_pos hc] at hx
    simp only [valuesOf, List.map_map, List.mem_map] at hx
    obtain ⟨p, hp, he⟩ := hx
    by_cases h : p.1 = k
    · simp only [Function.comp, if_pos h] at he
      exact Or.inl he.symm
    · simp only [Function.comp, if_neg h] at he
      exact Or.inr (he ▸ List.mem_map_of_mem Prod.snd hp)
  · rw [if_neg hc] at hx
    simp only [valuesOf, List.map_append, List.mem_append, List.map_cons] at hx
    rcases hx with hx | hx
    · exact Or.inr hx
    · simp at hx
      exact Or.inl hx

theorem keysOf_append_single (m : List (String × β)) (k : String) (v : β) :
    keysOf (m ++ [(k, v)]) = keysOf m ++ [k] := by
  simp [keysOf]

end AssocLemmas2

section RoundLemmas

theorem isCents_intCast (k : ℤ) : isCents (k : ℚ) :=
  ⟨100 * k, by push_cast; ring⟩

theorem isCents_add {a b : ℚ} (ha : isCents a) (hb : isCents b) : isCents (a + b) := by
  obtain ⟨j, hj⟩ := ha
  obtain ⟨k, hk⟩ := hb
  exact ⟨j + k, by rw [hj, hk]; push_cast; ring⟩

theorem isCents_neg {a : ℚ} (ha : isCents a) : isCents (-a) := by
  obtain ⟨j, hj⟩ := ha
  exact ⟨-j, by rw [hj]; push_cast; ring⟩

theorem isCents_sub {a b : ℚ} (ha : isCents a) (hb : isCents b) : isCents (a - b) := by
  rw [sub_eq_add_neg]
  exact isCents_add ha (isCents_neg hb)

theorem isCents_nsmul {a : ℚ} (n : ℕ) (ha : isCents a) : isCents ((n : ℚ) * a) := by
  obtain ⟨j, hj⟩ := ha
  exact ⟨n * j, by rw [hj]; push_cast; ring⟩

theorem round2_of_isCents {q : ℚ} (h : isCents q) : round2 q = q := by
  obtain ⟨k, hk⟩ := h
  subst hk
  unfold round2
  dsimp only
  have ht : (100 : ℚ) * ((k : ℚ) / 100) = (k : ℚ) := by ring
  rw [ht, Int.floor_intCast]
  norm_num

theorem isCents_round2 (q : ℚ) : isCents (round2 q) := by
  unfold round2
  exact ⟨_, rfl⟩

theorem round2_nonneg {q : ℚ} (h : 0 ≤ q) : 0 ≤ round2 q := by
  unfold round2
  have ht : (0 : ℚ) ≤ 100 * q := by positivity
  have hf : (0 : ℤ) ≤ ⌊(100 : ℚ) * q⌋ := Int.floor_nonneg.mpr ht
  have hz : ∀ z : ℤ, 0 ≤ z → (0 : ℚ) ≤ (z : ℚ) / 100 := by
    intro z hz0
    positivity
  dsimp only
  split
  · exact hz _ hf
  · split
    · exact hz _ (by omega)
    · split
      · exact hz _ hf
      · exact hz _ (by omega)

theorem cents_guard_iff {q : ℚ} (h : isCents q) :
    (1 / 1000000000 < |q|) ↔ q ≠ 0 := by
  obtain ⟨k, hk⟩ := h
  subst hk
  constructor
  · intro hlt he
    rw [he] at hlt
    norm_num at hlt
  · intro hne
    have hk0 : k ≠ 0 := by
      intro h0
      rw [h0] at hne
      norm_num at hne
    have h1 : (1 : ℤ) ≤ |k| := by
      rcases hk0.lt_or_lt with h | h
      · rw [abs_of_neg h]; omega
      · rw [abs_of_pos h]; omega
    have h2 : (1 : ℚ) ≤ |(k : ℚ)| := by
      rw [← Int.cast_abs]
      exact_mod_cast h1
    rw [abs_div]
    rw [abs_of_pos (by norm_num : (0:ℚ) < 100)]
    calc (1 : ℚ) / 1000000000 < 1 / 100 := by norm_num
      _ ≤ |(k : ℚ)| / 100 := by
          apply div_le_div_of_nonneg_right h2 (by norm_num)

theorem sumVals_const_map (l : List String) (c : ℚ) :
    sumVals (l.map (fun r => (r, c))) = (l.length : ℚ) * c := by
  induction l with
  | nil => simp [sumVals, valuesOf]
  | cons x rest ih =>
      simp only [List.map_cons, sumVals, valuesOf, List.sum_cons, List.length_cons] at *
      rw [ih]
      push_cast
      ring

end RoundLemmas

section FindLemmas

theorem findFirstIdx_none_iff (p : Offer → Bool) (l : List Offer) :
    findFirstIdx p l = none ↔ ∀ x ∈ l, p x = false := by
  induction l with
  | nil => simp [findFirstIdx]
  | cons r rest ih =>
      simp only [findFirstIdx]
      by_cases h : p r
      · simp [h]
      · rw [if_neg h]
        rw [Option.map_eq_none']
        rw [ih]
        constructor
        · intro hn x hx
          rcases List.mem_cons.mp hx with rfl | hx2
          · simpa using h
          · exact hn x hx2
        · intro ha x hx
          exact ha x (List.mem_cons_of_mem _ hx)

theorem findFirstIdx_spec (p : Offer → Bool) (l : List Offer) (i : ℕ)
    (h : findFirstIdx p l = some i) :
    (∃ x, l[i]? = some x ∧ p x = true) ∧
      (∀ j, j < i → ∀ y, l[j]? = some y → p y = false) := by
  induction l generalizing i with
  | nil => simp [findFirstIdx] at h
  | cons r rest ih =>
      simp only [findFirstIdx] at h
      by_cases hp : p r
      · rw [if_pos hp] at h
        simp only [Option.some.injEq] at h
        subst h
        exact ⟨⟨r, by simp, hp⟩, by omega⟩
      · rw [if_neg hp] at h
        rw [Option.map_eq_some'] at h
        obtain ⟨i', hi', rfl⟩ := h
        obtain ⟨⟨x, hx, hpx⟩, hmin⟩ := ih i' hi'
        refine ⟨⟨x, by simpa using hx, hpx⟩, ?_⟩
        intro j hj y hy
        cases j with
        | zero =>
            simp only [List.getElem?_cons_zero, Option.some.injEq] at hy
            subst hy
            simpa using hp
        | succ j' =>
            simp only [List.getElem?_cons_succ] at hy
            exact hmin j' (by omega) y hy

end FindLemmas

section RespondShape

theorem respond_swap_none (st : AppState) (u : String) (p? a? : Option String)
    (hf : findFirstIdx (offerMatches u p?) st.pending = none) :
    respond_swap st u p? a? = (some .noSuchOffer, st) := by
  unfold respond_swap
  rw [hf]

theorem respond_swap_accept_eq (st : AppState) (u : String) (p? a? : Option String)
    (idx : ℕ) (req : Offer) (proposer I J : String) (pI pJ : ℚ)
    (hf : findFirstIdx (offerMatches u p?) st.pending = some idx)
    (hreq : st.pending[idx]? = some req)
    (hp : p? = some proposer)
    (hI : lookupD st.assignment proposer = some I)
    (hJ : lookupD st.assignment u = some J)
    (hpI : lookupD st.prices I = some pI)
    (hpJ : lookupD st.prices J = some pJ)
    (ha : a? = some ("accept")) :
    respond_swap st u p? a? =
      (none, acceptUpdate st idx proposer u I J pI pJ req.offered_price) := by
  unfold respond_swap
  rw [hf]
  dsimp only
  rw [hreq]
  dsimp only
  rw [hp]
  dsimp only
  rw [hI, hJ]
  dsimp only
  rw [hpI, hpJ]
  dsimp only
  rw [if_pos (by rw [ha]; exact beq_self_eq_true _)]
  rfl

theorem respond_swap_decline_eq (st : AppState) (u : String) (p? a? : Option String)
    (idx : ℕ) (req : Offer) (proposer I J : String) (pI pJ : ℚ)
    (hf : findFirstIdx (offerMatches u p?) st.pending = some idx)
    (hreq : st.pending[idx]? = some req)
    (hp : p? = some proposer)
    (hI : lookupD st.assignment proposer = some I)
    (hJ : lookupD st.assignment u = some J)
    (hpI : lookupD st.prices I = some pI)
    (hpJ : lookupD st.prices J = some pJ)
    (ha : a? ≠ some ("accept")) :
    respond_swap st u p? a? =
      (none, declineUpdate st idx I J pI pJ req.offered_price) := by
  unfold respond_swap
  rw [hf]
  dsimp only
  rw [hreq]
  dsimp only
  rw [hp]
  dsimp only
  rw [hI, hJ]
  dsimp only
  rw [hpI, hpJ]
  dsimp only
  rw [if_neg (by
    intro hb
    rw [beq_iff_eq] at hb
    exact ha hb)]
  rfl

end RespondShape

section OpShapes

theorem choose_user_snd_cases (st : AppState) (u? : Option String) :
    (choose_user st u?).2 = st ∨
    (∃ u, u? = some u ∧
      (choose_user st u?).2 = { st with available := st.available.erase u }) := by
  unfold choose_user
  cases u? with
  | none => left; rfl
  | some u =>
      dsimp only
      by_cases h : u ≠ ("") ∧ u ∈ st.available
      · rw [if_pos h]
        exact Or.inr ⟨u, rfl, rfl⟩
      · rw [if_neg h]
        left
        rfl

theorem set_state_snd_cases (st : AppState) (u : String) (s? : Option String) :
    (set_state st u s?).2 = st ∨
    (∃ s, s? = some s ∧ (s = ("satisfied") ∨ s = ("unsatisfied")) ∧
      (set_state st u s?).2 = { st with states := setD st.states u (some s) }) := by
  unfold set_state
  cases s? with
  | none => left; rfl
  | some s =>
      dsimp only
      by_cases h : s = ("satisfied") ∨ s = ("unsatisfied")
      · rw [if_pos h]
        exact Or.inr ⟨s, rfl, h, rfl⟩
      · rw [if_neg h]
        left
        rfl

theorem propose_swap_snd_cases (st : AppState) (u : String) (t? p? : Option String) :
    (propose_swap st u t? p?).2 = st ∨
    (∃ target price_str offered, t? = some target ∧ p? = some price_str ∧
      target ∈ st.people ∧ target ≠ u ∧
      resolveOffered st target price_str = some offered ∧ ¬ offered < 0 ∧
      (propose_swap st u t? p?).2 =
        { st with pending := st.pending ++ [⟨u, target, offered⟩] }) := by
  unfold propose_swap
  cases t? with
  | none => left; rfl
  | some target =>
      cases p? with
      | none => left; rfl
      | some price_str =>
          dsimp only
          by_cases hg : target ∈ st.people ∧ target ≠ u
          · rw [if_pos hg]
            cases hro : resolveOffered st target price_str with
            | none => left; rfl
            | some offered =>
                dsimp only
                by_cases hneg : offered < 0
                · rw [if_pos hneg]
                  left
                  rfl
                · rw [if_neg hneg]
                  exact Or.inr ⟨target, price_str, offered, rfl, rfl, hg.1, hg.2, hro, hneg, rfl⟩
          · rw [if_neg hg]
            left
            rfl

theorem respond_swap_snd_cases (st : AppState) (u : String) (p? a? : Option String) :
    (respond_swap st u p? a?).2 = st ∨
    (∃ idx, (respond_swap st u p? a?).2 = { st with pending := st.pending.eraseIdx idx }) ∨
    (∃ idx req proposer I J pI pJ,
      findFirstIdx (offerMatches u p?) st.pending = some idx ∧
      st.pending[idx]? = some req ∧ p? = some proposer ∧
      lookupD st.assignment proposer = some I ∧ lookupD st.assignment u = some J ∧
      lookupD st.prices I = some pI ∧ lookupD st.prices J = some pJ ∧
      ((respond_swap st u p? a?).2 =
          acceptUpdate st idx proposer u I J pI pJ req.offered_price ∨
        (respond_swap st u p? a?).2 =
          declineUpdate st idx I J pI pJ req.offered_price)) := by
  unfold respond_swap
  cases hf : findFirstIdx (offerMatches u p?) st.pending with
  | none => left; rfl
  | some idx =>
      dsimp only
      cases hreq : st.pending[idx]? with
      | none => left; rfl
      | some req =>
          dsimp only
          cases p? with
          | none => exact Or.inr (Or.inl ⟨idx, rfl⟩)
          | some proposer =>
              dsimp only
              cases hI : lookupD st.assignment proposer with
              | none => exact Or.inr (Or.inl ⟨idx, rfl⟩)
              | some I =>
                  cases hJ : lookupD st.assignment u with
                  | none => exact Or.inr (Or.inl ⟨idx, rfl⟩)
                  | some J =>
                      dsimp only
                      cases hpI : lookupD st.prices I with
                      | none => exact Or.inr (Or.inl ⟨idx, rfl⟩)
                      | some pI =>
                          cases hpJ : lookupD st.prices J with
                          | none => exact Or.inr (Or.inl ⟨idx, rfl⟩)
                          | some pJ =>
                              dsimp only
                              by_cases hacc : (a? == some ("accept")) = true
                              · rw [if_pos hacc]
                                exact Or.inr (Or.inr ⟨idx, req, proposer, I, J, pI, pJ,
                                  rfl, hreq, rfl, hI, rfl, hpI, hpJ, Or.inl rfl⟩)
                              · rw [if_neg hacc]
                                exact Or.inr (Or.inr ⟨idx, req, proposer, I, J, pI, pJ,
                                  rfl, hreq, rfl, hI, rfl, hpI, hpJ, Or.inr rfl⟩)

end OpShapes

section StructPreserve

theorem genRooms_length (n : ℕ) : (genRooms n).length = n := by
  simp [genRooms]

theorem keysOf_map_pair (l : List String) (c : ℚ) :
    keysOf (l.map (fun r => (r, c))) = l := by
  induction l with
  | nil => rfl
  | cons x rest ih => simp only [keysOf, List.map_cons] at *; rw [ih]

theorem getLast?_mem_self {l : List String} {a : String}
    (h : l.getLast? = some a) : a ∈ l := by
  obtain ⟨hne, he⟩ := List.mem_getLast?_eq_getLast (Option.mem_def.mpr h)
  rw [he]
  exact List.getLast_mem hne

theorem lookupD_map_pair (l : List String) (c : ℚ) (r : String) (hr : r ∈ l) :
    lookupD (l.map (fun x => (x, c))) r = some c := by
  induction l with
  | nil => simp at hr
  | cons x rest ih =>
      rcases List.mem_cons.mp hr with rfl | hr2
      · simp [lookupD]
      · by_cases hx : x = r
        · simp [lookupD, hx]
        · simp only [List.map_cons, lookupD, if_neg hx]
          exact ih hr2

theorem structInv_init (people shuffled : List String) (total : ℚ)
    (hne : people ≠ []) (hnd : people.Nodup)
    (hperm : shuffled.Perm (genRooms people.length)) (hrnd : shuffled.Nodup) :
    StructInv (init_allocation people shuffled total) := by
  have hlen : shuffled.length = people.length := by
    rw [hperm.length_eq, genRooms_length]
  unfold init_allocation StructInv
  dsimp only
  refine ⟨hne, hnd, hrnd, ?_, ?_, ?_, by simp⟩
  · unfold keysOf
    exact List.map_fst_zip people shuffled (le_of_eq hlen.symm)
  · unfold valuesOf
    rw [List.map_snd_zip people shuffled (le_of_eq hlen)]
  · split
    · split
      · next lastRoom hlast =>
          rw [keysOf_setD]
          · exact keysOf_map_pair shuffled _
          · rw [keysOf_map_pair]
            exact getLast?_mem_self hlast
      · exact keysOf_map_pair shuffled _
    · exact keysOf_map_pair shuffled _

theorem structInv_record_available (st : AppState) (x : List String)
    (h : StructInv st) : StructInv { st with available := x } := h

theorem structInv_record_states (st : AppState) (x : List (String × Option String))
    (h : StructInv st) : StructInv { st with states := x } := h

theorem structInv_choose (st : AppState) (u? : Option String)
    (h : StructInv st) : StructInv (choose_user st u?).2 := by
  rcases choose_user_snd_cases st u? with he | ⟨u, _, he⟩
  · rw [he]; exact h
  · rw [he]; exact h

theorem structInv_set_state (st : AppState) (u : String) (s? : Option String)
    (h : StructInv st) : StructInv (set_state st u s?).2 := by
  rcases set_state_snd_cases st u s? with he | ⟨s, _, _, he⟩
  · rw [he]; exact h
  · rw [he]; exact h

theorem structInv_propose (st : AppState) (u : String) (t? p? : Option String)
    (hu : u ∈ st.people) (h : StructInv st) :
    StructInv (propose_swap st u t? p?).2 := by
  rcases propose_swap_snd_cases st u t? p? with he |
    ⟨target, price_str, offered, _, _, htp, htu, _, _, he⟩
  · rw [he]; exact h
  · rw [he]
    obtain ⟨h1, h2, h3, h4, h5, h6, h7⟩ := h
    refine ⟨h1, h2, h3, h4, h5, h6, ?_⟩
    intro o ho
    rcases List.mem_append.mp ho with ho | ho
    · exact h7 o ho
    · simp only [List.mem_singleton] at ho
      subst ho
      refine ⟨hu, htp, ?_⟩
      intro e
      dsimp only at e
      exact htu e.symm

end StructPreserve

section StructPreserve2

theorem respond_offer_facts (st : AppState) (u proposer : String) (idx : ℕ) (req : Offer)
    (hf : findFirstIdx (offerMatches u (some proposer)) st.pending = some idx)
    (hreq : st.pending[idx]? = some req) :
    req ∈ st.pending ∧ req.proposer = proposer ∧ req.target = u := by
  obtain ⟨⟨x, hx, hpx⟩, _⟩ := findFirstIdx_spec _ _ _ hf
  have hxr : x = req := by
    rw [hreq] at hx
    exact (Option.some.injEq _ _ ▸ hx).symm
  subst hxr
  unfold offerMatches at hpx
  rw [Bool.and_eq_true] at hpx
  obtain ⟨hp1, hp2⟩ := hpx
  rw [beq_iff_eq] at hp1 hp2
  have hmem : x ∈ st.pending := by
    have := List.getElem?_eq_some_iff.mp hreq
    obtain ⟨hlt, hget⟩ := this
    rw [← hget]
    exact List.getElem_mem _
  exact ⟨hmem, Option.some.injEq _ _ ▸ hp1, hp2⟩

theorem keysOf_setD2 {β : Type} (P : List (String × β)) (I J : String) (x y : β)
    (hI : I ∈ keysOf P) (hJ : J ∈ keysOf P) :
    keysOf (setD (setD P J x) I y) = keysOf P := by
  rw [keysOf_setD _ I y (by rw [keysOf_setD _ J x hJ]; exact hI),
    keysOf_setD _ J x hJ]

theorem valuesOf_setD2_perm {β : Type} (A : List (String × β)) (p u : String) (I J : β)
    (hknd : (keysOf A).Nodup) (hne : u ≠ p)
    (hI : lookupD A p = some I) (hJ : lookupD A u = some J) :
    (valuesOf (setD (setD A p J) u I)).Perm (valuesOf A) := by
  have perm1 := valuesOf_setD_perm A p I J hknd hI
  have hknd1 : (keysOf (setD A p J)).Nodup := by
    rw [keysOf_setD A p J (lookupD_mem_keys _ _ _ hI)]
    exact hknd
  have hJ1 : lookupD (setD A p J) u = some J := by
    rw [lookupD_setD_ne A p u J hne]
    exact hJ
  have perm2 := valuesOf_setD_perm (setD A p J) u J I hknd1 hJ1
  exact (perm2.trans perm1).cons_inv

theorem structInv_respond (st : AppState) (u : String) (p? a? : Option String)
    (h : StructInv st) : StructInv (respond_swap st u p? a?).2 := by
  rcases respond_swap_snd_cases st u p? a? with he | ⟨idx, he⟩ |
    ⟨idx, req, proposer, I, J, pI, pJ, hf, hreq, hp, hI, hJ, hpI, hpJ, hcase⟩
  · rw [he]; exact h
  · rw [he]
    obtain ⟨h1, h2, h3, h4, h5, h6, h7⟩ := h
    exact ⟨h1, h2, h3, h4, h5, h6,
      fun o ho => h7 o ((st.pending.eraseIdx_sublist idx).subset ho)⟩
  · subst hp
    obtain ⟨hmem, hprop, htarg⟩ := respond_offer_facts st u proposer idx req hf hreq
    obtain ⟨h1, h2, h3, h4, h5, h6, h7⟩ := h
    have hne : proposer ≠ u := by
      have hw := h7 req hmem
      rw [hprop, htarg] at hw
      exact hw.2.2
    have hkndA : (keysOf st.assignment).Nodup := by rw [h4]; exact h2
    have hkndP : (keysOf st.prices).Nodup := by rw [h6]; exact h3
    have hIk : I ∈ keysOf st.prices := by
      rw [h6]
      exact h5.subset (lookupD_mem_values _ _ _ hI)
    have hJk : J ∈ keysOf st.prices := by
      rw [h6]
      exact h5.subset (lookupD_mem_values _ _ _ hJ)
    rcases hcase with he | he
    · rw [he]
      unfold acceptUpdate
      refine ⟨h1, h2, h3, ?_, ?_, ?_, ?_⟩
      · rw [keysOf_setD2 st.assignment u proposer J I
          (lookupD_mem_keys _ _ _ hJ) (lookupD_mem_keys _ _ _ hI)]
        exact h4
      · exact (valuesOf_setD2_perm st.assignment proposer u I J hkndA
          (fun e => hne e.symm) hI hJ).trans h5
      · rw [keysOf_setD2 st.prices I J _ _ hIk hJk]
        exact h6
      · intro o ho
        have ho2 : o ∈ st.pending.eraseIdx idx := (List.mem_filter.mp ho).1
        exact h7 o ((st.pending.eraseIdx_sublist idx).subset ho2)
    · rw [he]
      unfold declineUpdate
      refine ⟨h1, h2, h3, h4, h5, ?_, ?_⟩
      · rw [keysOf_setD2 st.prices I J _ _ hIk hJk]
        exact h6
      · intro o ho
        exact h7 o ((st.pending.eraseIdx_sublist idx).subset ho)

theorem reachable_structInv (st : AppState) (h : Reachable st) : StructInv st := by
  induction h with
  | init people shuffled total hne hnd hperm hrnd =>
      exact structInv_init people shuffled total hne hnd hperm hrnd
  | choose st u? hst ih => exact structInv_choose st u? ih
  | set_st st u s? hst hu ih => exact structInv_set_state st u s? ih
  | propose st u t? p? hst hu ih => exact structInv_propose st u t? p? hu ih
  | respond st u p? a? hst hu ih => exact structInv_respond st u p? a? ih

theorem reachableC_reachable (st : AppState) (h : ReachableC st) : Reachable st := by
  induction h with
  | init people shuffled total hne hnd hperm hrnd hcent =>
      exact Reachable.init people shuffled total hne hnd hperm hrnd
  | choose st u? hst ih => exact Reachable.choose st u? ih
  | set_st st u s? hst hu ih => exact Reachable.set_st st u s? ih hu
  | propose st u t? p? hst hu hc ih => exact Reachable.propose st u t? p? ih hu
  | respond st u p? a? hst hu ih => exact Reachable.respond st u p? a? ih hu

end StructPreserve2

section CentPreserve

theorem values_map_pair_eq (l : List String) (c : ℚ) (x : ℚ)
    (hx : x ∈ valuesOf (l.map (fun r => (r, c)))) : x = c := by
  induction l with
  | nil => simp [valuesOf] at hx
  | cons y rest ih =>
      simp only [List.map_cons, valuesOf, List.mem_cons] at hx ih
      rcases hx with hx | hx
      · exact hx
      · exact ih hx

theorem centInv_init (people shuffled : List String) (total : ℚ)
    (hne : people ≠ []) (hperm : shuffled.Perm (genRooms people.length))
    (hrnd : shuffled.Nodup) (hcent : isCents total) :
    CentInv (init_allocation people shuffled total) := by
  have hlen : shuffled.length = people.length := by
    rw [hperm.length_eq, genRooms_length]
  have hsne : shuffled ≠ [] := by
    intro he
    apply hne
    have : people.length = 0 := by rw [← hlen, he]; rfl
    exact List.eq_nil_of_length_eq_zero this
  unfold init_allocation CentInv sumPrices
  dsimp only
  set base : ℚ := round2 (total / (people.length : ℚ)) with hbase_def
  have hbase : isCents base := isCents_round2 _
  set prices0 : List (String × ℚ) := shuffled.map (fun r => (r, base)) with hp0
  have hsum0 : sumVals prices0 = (shuffled.length : ℚ) * base := sumVals_const_map _ _
  have hnb : isCents ((shuffled.length : ℚ) * base) := isCents_nsmul _ hbase
  have hdisc_cents : isCents (round2 (total - sumVals prices0)) := isCents_round2 _
  have hdisc_val : round2 (total - sumVals prices0) =
      total - (shuffled.length : ℚ) * base := by
    rw [hsum0]
    exact round2_of_isCents (isCents_sub hcent hnb)
  obtain ⟨lr, hlast⟩ : ∃ lr, shuffled.getLast? = some lr :=
    ⟨shuffled.getLast hsne, List.getLast?_eq_getLast_of_ne_nil hsne⟩
  have hlr : lr ∈ shuffled := getLast?_mem_self hlast
  have hlook0 : lookupD prices0 lr = some base := lookupD_map_pair shuffled base lr hlr
  have hknd0 : (keysOf prices0).Nodup := by rw [hp0, keysOf_map_pair]; exact hrnd
  by_cases hd : 1 / 1000000000 < |round2 (total - sumVals prices0)|
  · rw [if_pos hd, hlast]
    have hdne : total - (shuffled.length : ℚ) * base ≠ 0 :=
      fun he => (cents_guard_iff hdisc_cents).mp hd (by rw [hdisc_val, he])
    refine ⟨hcent, ?_, by simp, ?_⟩
    · intro x hx
      rcases valuesOf_setD_subset prices0 lr _ x hx with he | he
      · rw [he]
        exact isCents_round2 _
      · rw [values_map_pair_eq shuffled base x he]
        exact hbase
    · rw [sumVals_setD prices0 lr base _ hknd0 hlook0]
      rw [hlook0]
      have hgd : (some base).getD 0 = base := rfl
      rw [hgd]
      rw [round2_of_isCents (isCents_add hbase hdisc_cents), hdisc_val, hsum0]
      ring
  · rw [if_neg hd]
    have hdz : round2 (total - sumVals prices0) = 0 := by
      by_contra hne2
      exact hd ((cents_guard_iff hdisc_cents).mpr hne2)
    have : total - (shuffled.length : ℚ) * base = 0 := by rw [← hdisc_val, hdz]
    refine ⟨hcent, ?_, by simp, ?_⟩
    · intro x hx
      rw [values_map_pair_eq shuffled base x hx]
      exact hbase
    · rw [hsum0]
      linarith

end CentPreserve

section CentPreserve2

theorem centInv_choose (st : AppState) (u? : Option String)
    (h : CentInv st) : CentInv (choose_user st u?).2 := by
  rcases choose_user_snd_cases st u? with he | ⟨u, _, he⟩
  · rw [he]; exact h
  · rw [he]; exact h

theorem centInv_set_state (st : AppState) (u : String) (s? : Option String)
    (h : CentInv st) : CentInv (set_state st u s?).2 := by
  rcases set_state_snd_cases st u s? with he | ⟨s, _, _, he⟩
  · rw [he]; exact h
  · rw [he]; exact h

theorem centInv_propose (st : AppState) (u : String) (t? p? : Option String)
    (h : CentInv st)
    (hc : ∀ o ∈ (propose_swap st u t? p?).2.pending, isCents o.offered_price) :
    CentInv (propose_swap st u t? p?).2 := by
  rcases propose_swap_snd_cases st u t? p? with he |
    ⟨target, price_str, offered, _, _, _, _, _, _, he⟩
  · rw [he]; exact h
  · rw [he] at hc ⊢
    exact ⟨h.1, h.2.1, hc, h.2.2.2⟩

theorem centInv_respond (st : AppState) (u : String) (p? a? : Option String)
    (h : CentInv st) (hs : StructInv st) :
    CentInv (respond_swap st u p? a?).2 := by
  obtain ⟨hct, hcp, hco, hsum⟩ := h
  rcases respond_swap_snd_cases st u p? a? with he | ⟨idx, he⟩ |
    ⟨idx, req, proposer, I, J, pI, pJ, hf, hreq, hp, hI, hJ, hpI, hpJ, hcase⟩
  · rw [he]; exact ⟨hct, hcp, hco, hsum⟩
  · rw [he]
    exact ⟨hct, hcp,
      fun o ho => hco o ((st.pending.eraseIdx_sublist idx).subset ho), hsum⟩
  · subst hp
    obtain ⟨hmem, hprop, htarg⟩ := respond_offer_facts st u proposer idx req hf hreq
    obtain ⟨h1, h2, h3, h4, h5, h6, h7⟩ := hs
    have hne : proposer ≠ u := by
      have hw := h7 req hmem
      rw [hprop, htarg] at hw
      exact hw.2.2
    have hkndA : (keysOf st.assignment).Nodup := by rw [h4]; exact h2
    have hkndP : (keysOf st.prices).Nodup := by rw [h6]; exact h3
    have hvndA : (valuesOf st.assignment).Nodup := h5.nodup_iff.mpr h3
    have hIJ : I ≠ J := by
      intro e
      exact hne (lookupD_inj st.assignment proposer u I hkndA hvndA hI (e ▸ hJ))
    have hoff : isCents req.offered_price := hco req hmem
    have hcpI : isCents pI := hcp pI (lookupD_mem_values _ _ _ hpI)
    have hcpJ : isCents pJ := hcp pJ (lookupD_mem_values _ _ _ hpJ)
    have hr2off : round2 req.offered_price = req.offered_price :=
      round2_of_isCents hoff
    have hr2rest : round2 (pI + pJ - req.offered_price) = pI + pJ - req.offered_price :=
      round2_of_isCents (isCents_sub (isCents_add hcpI hcpJ) hoff)
    have hknd1 : (keysOf (setD st.prices J (round2 req.offered_price))).Nodup := by
      rw [keysOf_setD st.prices J _ (lookupD_mem_keys _ _ _ hpJ)]
      exact hkndP
    have hlookI1 : lookupD (setD st.prices J (round2 req.offered_price)) I = some pI := by
      rw [lookupD_setD_ne st.prices J I _ hIJ]
      exact hpI
    have hsum2 : sumVals (setD (setD st.prices J (round2 req.offered_price)) I
        (round2 (pI + pJ - req.offered_price))) = sumVals st.prices := by
      rw [sumVals_setD _ I pI _ hknd1 hlookI1,
        sumVals_setD st.prices J pJ _ hkndP hpJ, hr2off, hr2rest]
      ring
    have hvals : ∀ x ∈ valuesOf (setD (setD st.prices J (round2 req.offered_price)) I
        (round2 (pI + pJ - req.offered_price))), isCents x := by
      intro x hx
      rcases valuesOf_setD_subset _ I _ x hx with hx2 | hx2
      · rw [hx2, hr2rest]
        exact isCents_sub (isCents_add hcpI hcpJ) hoff
      · rcases valuesOf_setD_subset _ J _ x hx2 with hx3 | hx3
        · rw [hx3, hr2off]
          exact hoff
        · exact hcp x hx3
    rcases hcase with he | he
    · rw [he]
      unfold acceptUpdate
      refine ⟨hct, hvals, ?_, ?_⟩
      · intro o ho
        have ho2 : o ∈ st.pending.eraseIdx idx := (List.mem_filter.mp ho).1
        exact hco o ((st.pending.eraseIdx_sublist idx).subset ho2)
      · unfold sumPrices
        dsimp only
        rw [hsum2]
        exact hsum
    · rw [he]
      unfold declineUpdate
      refine ⟨hct, hvals, ?_, ?_⟩
      · intro o ho
        exact hco o ((st.pending.eraseIdx_sublist idx).subset ho)
      · unfold sumPrices
        dsimp only
        rw [hsum2]
        exact hsum

theorem reachableC_centInv (st : AppState) (h : ReachableC st) : CentInv st := by
  induction h with
  | init people shuffled total hne hnd hperm hrnd hcent =>
      exact centInv_init people shuffled total hne hperm hrnd hcent
  | choose st u? hst ih => exact centInv_choose st u? ih
  | set_st st u s? hst hu ih => exact centInv_set_state st u s? ih
  | propose st u t? p? hst hu hc ih => exact centInv_propose st u t? p? ih hc
  | respond st u p? a? hst hu ih =>
      exact centInv_respond st u p? a? ih
        (reachable_structInv st (reachableC_reachable st hst))

end CentPreserve2

section RespondAux

theorem respond_swap_success_inv (st : AppState) (u : String) (p? a? : Option String)
    (st' : AppState) (h : respond_swap st u p? a? = (none, st')) :
    ∃ idx req proposer I J pI pJ,
      findFirstIdx (offerMatches u p?) st.pending = some idx ∧
      st.pending[idx]? = some req ∧ p? = some proposer ∧
      lookupD st.assignment proposer = some I ∧
      lookupD st.assignment u = some J ∧
      lookupD st.prices I = some pI ∧ lookupD st.prices J = some pJ ∧
      ((a? = some ("accept") ∧
        st' = acceptUpdate st idx proposer u I J pI pJ req.offered_price) ∨
       (a? ≠ some ("accept") ∧
        st' = declineUpdate st idx I J pI pJ req.offered_price)) := by
  unfold respond_swap at h
  cases hf : findFirstIdx (offerMatches u p?) st.pending with
  | none => rw [hf] at h; simp at h
  | some idx =>
      rw [hf] at h
      dsimp only at h
      cases hreq : st.pending[idx]? with
      | none => rw [hreq] at h; simp at h
      | some req =>
          rw [hreq] at h
          dsimp only at h
          cases p? with
          | none => simp at h
          | some proposer =>
              dsimp only at h
              cases hI : lookupD st.assignment proposer with
              | none => rw [hI] at h; simp at h
              | some I =>
                  cases hJ : lookupD st.assignment u with
                  | none => rw [hI, hJ] at h; simp at h
                  | some J =>
                      rw [hI, hJ] at h
                      dsimp only at h
                      cases hpI : lookupD st.prices I with
                      | none => rw [hpI] at h; simp at h
                      | some pI =>
                          cases hpJ : lookupD st.prices J with
                          | none => rw [hpI, hpJ] at h; simp at h
                          | some pJ =>
                              rw [hpI, hpJ] at h
                              dsimp only at h
                              by_cases hacc : (a? == some ("accept")) = true
                              · rw [if_pos hacc] at h
                                rw [beq_iff_eq] at hacc
                                refine ⟨idx, req, proposer, I, J, pI, pJ,
                                  rfl, hreq, rfl, hI, rfl, hpI, hpJ,
                                  Or.inl ⟨hacc, ?_⟩⟩
                                have h2 := congrArg Prod.snd h
                                dsimp only at h2
                                rw [← h2]
                                rfl
                              · rw [if_neg hacc] at h
                                rw [beq_iff_eq] at hacc
                                refine ⟨idx, req, proposer, I, J, pI, pJ,
                                  rfl, hreq, rfl, hI, rfl, hpI, hpJ,
                                  Or.inr ⟨hacc, ?_⟩⟩
                                have h2 := congrArg Prod.snd h
                                dsimp only at h2
                                rw [← h2]
                                rfl

theorem respond_swap_error_assignment (st : AppState) (u : String)
    (p? a? : Option String) (e : HErr) (st' : AppState)
    (h : respond_swap st u p? a? = (some e, st')) :
    st'.assignment = st.assignment := by
  unfold respond_swap at h
  cases hf : findFirstIdx (offerMatches u p?) st.pending with
  | none =>
      rw [hf] at h
      have h2 := congrArg Prod.snd h
      dsimp only at h2
      rw [← h2]
  | some idx =>
      rw [hf] at h
      dsimp only at h
      cases hreq : st.pending[idx]? with
      | none =>
          rw [hreq] at h
          have h2 := congrArg Prod.snd h
          dsimp only at h2
          rw [← h2]
      | some req =>
          rw [hreq] at h
          dsimp only at h
          cases p? with
          | none =>
              have h2 := congrArg Prod.snd h
              dsimp only at h2
              rw [← h2]
          | some proposer =>
              dsimp only at h
              cases hI : lookupD st.assignment proposer with
              | none =>
                  rw [hI] at h
                  have h2 := congrArg Prod.snd h
                  dsimp only at h2
                  rw [← h2]
              | some I =>
                  cases hJ : lookupD st.assignment u with
                  | none =>
                      rw [hI, hJ] at h
                      have h2 := congrArg Prod.snd h
                      dsimp only at h2
                      rw [← h2]
                  | some J =>
                      rw [hI, hJ] at h
                      dsimp only at h
                      cases hpI : lookupD st.prices I with
                      | none =>
                          rw [hpI] at h
                          have h2 := congrArg Prod.snd h
                          dsimp only at h2
                          rw [← h2]
                      | some pI =>
                          cases hpJ : lookupD st.prices J with
                          | none =>
                              rw [hpI, hpJ] at h
                              have h2 := congrArg Prod.snd h
                              dsimp only at h2
                              rw [← h2]
                          | some pJ =>
                              rw [hpI, hpJ] at h
                              dsimp only at h
                              by_cases hacc : (a? == some ("accept")) = true
                              · rw [if_pos hacc] at h
                                simp at h
                              · rw [if_neg hacc] at h
                                simp at h

theorem respond_swap_action_irrelevant (st : AppState) (u : String)
    (p? a? : Option String) (ha : a? ≠ some ("accept")) :
    respond_swap st u p? a? = respond_swap st u p? (some ("decline")) := by
  unfold respond_swap
  cases findFirstIdx (offerMatches u p?) st.pending with
  | none => rfl
  | some idx =>
      dsimp only
      cases st.pending[idx]? with
      | none => rfl
      | some req =>
          dsimp only
          cases p? with
          | none => rfl
          | some proposer =>
              dsimp only
              cases lookupD st.assignment proposer with
              | none => rfl
              | some I =>
                  cases lookupD st.assignment u with
                  | none => rfl
                  | some J =>
                      dsimp only
                      cases lookupD st.prices I with
                      | none => rfl
                      | some pI =>
                          cases lookupD st.prices J with
                          | none => rfl
                          | some pJ =>
                              dsimp only
                              rw [if_neg (fun hb => ha (by rwa [beq_iff_eq] at hb)),
                                if_neg (by decide)]

theorem respond_swap_nonaccept_assignment (st : AppState) (u : String)
    (p? a? : Option String) (ha : a? ≠ some ("accept")) :
    (respond_swap st u p? a?).2.assignment = st.assignment := by
  rw [respond_swap_action_irrelevant st u p? a? ha]
  cases hr : respond_swap st u p? (some ("decline")) with
  | mk e1 st' =>
      cases e1 with
      | none =>
          obtain ⟨idx, req, proposer, I, J, pI, pJ, _, _, _, _, _, _, _, hcase⟩ :=
            respond_swap_success_inv st u p? (some ("decline")) st' hr
          rcases hcase with ⟨hacc, _⟩ | ⟨_, he⟩
          · exact absurd hacc (by decide)
          · rw [he]
            rfl
      | some e => exact respond_swap_error_assignment st u p? _ e st' hr

theorem respond_pending_sublist (st : AppState) (u : String) (p? a? : Option String)
    (idx : ℕ) (hf : findFirstIdx (offerMatches u p?) st.pending = some idx) :
    ((respond_swap st u p? a?).2.pending).Sublist (st.pending.eraseIdx idx) := by
  obtain ⟨⟨x, hx, _⟩, _⟩ := findFirstIdx_spec _ _ _ hf
  unfold respond_swap
  rw [hf]
  dsimp only
  rw [hx]
  dsimp only
  cases p? with
  | none => exact List.Sublist.refl _
  | some proposer =>
      dsimp only
      cases lookupD st.assignment proposer with
      | none => exact List.Sublist.refl _
      | some I =>
          cases lookupD st.assignment u with
          | none => exact List.Sublist.refl _
          | some J =>
              dsimp only
              cases lookupD st.prices I with
              | none => exact List.Sublist.refl _
              | some pI =>
                  cases lookupD st.prices J with
                  | none => exact List.Sublist.refl _
                  | some pJ =>
                      dsimp only
                      split
                      · exact List.filter_sublist _
                      · exact List.Sublist.refl _

end RespondAux

section ConcreteEval

theorem genRooms_three : genRooms 3 = [("unit_1"), ("unit_2"), ("unit_3")] := by
  decide

theorem parse1000 : parseFloat ("1000") = some 1000 := by
  have h : parseParts (trimChars (("1000").toList)) = some (false, 1000, 0, 0) := by
    decide
  rw [parseFloat, h]
  norm_num [ofParts, Rat.divInt_eq_div]

theorem parseHalf : parseFloat ("0.005") = some (1/200) := by
  have h : parseParts (trimChars (("0.005").toList)) = some (false, 0, 5, 3) := by
    decide
  rw [parseFloat, h]
  norm_num [ofParts, Rat.divInt_eq_div]

theorem st0_eq : init_allocation (["A","B","C"]) (genRooms 3) 100 = exSt0 := by
  have r1 : ("unit_") ++ Nat.repr 1 = ("unit_1") := by decide
  have r2 : ("unit_") ++ Nat.repr 2 = ("unit_2") := by decide
  have r3 : ("unit_") ++ Nat.repr 3 = ("unit_3") := by decide
  rw [genRooms_three]
  norm_num [init_allocation, exSt0, sumVals, valuesOf, setD, containsKeyD, lookupD, round2,
    r1, r2, r3]
  rw [if_pos (show (1:ℚ)/1000000000 < |1/100| by rw [abs_of_pos] <;> norm_num)]
  simp only [String.reduceEq, reduceIte]

theorem prop1000_eq :
    propose_swap exSt0 ("A") (some ("C")) (some ("1000")) = (none, exStP1000) := by
  have ht : trimChars (("1000").toList) = [('1'), ('0'), ('0'), ('0')] := by decide
  simp only [propose_swap, resolveOffered, ht, parse1000, exSt0, exStP1000]
  simp only [String.reduceEq, reduceCtorEq, reduceIte]
  all_goals try norm_num
  all_goals decide

theorem propHalf_eq :
    propose_swap exSt0 ("A") (some ("C")) (some ("0.005")) = (none, exStPHalf) := by
  have ht : trimChars (("0.005").toList) = [('0'), ('.'), ('0'), ('0'), ('5')] := by
    decide
  simp only [propose_swap, resolveOffered, ht, parseHalf, exSt0, exStPHalf]
  simp only [String.reduceEq, reduceCtorEq, reduceIte]
  all_goals try norm_num
  all_goals try decide

theorem respAcc_eq :
    respond_swap exStP1000 ("C") (some ("A")) (some ("accept")) = (none, exStAcc) := by
  simp only [respond_swap, exStP1000, exSt0, findFirstIdx, offerMatches, lookupD, setD,
    containsKeyD, involvesRooms, exStAcc, String.reduceEq, String.reduceBEq, reduceCtorEq,
    reduceIte, Option.some.injEq]
  all_goals try norm_num [round2]
  all_goals try simp only [String.reduceEq, reduceCtorEq, reduceIte]
  all_goals try norm_num

theorem respDec_eq :
    respond_swap exStPHalf ("C") (some ("A")) (some ("decline")) = (none, exStDec) := by
  simp only [respond_swap, exStPHalf, exSt0, findFirstIdx, offerMatches, lookupD, setD,
    containsKeyD, involvesRooms, exStDec, String.reduceEq, String.reduceBEq, reduceCtorEq,
    reduceIte, Option.some.injEq]
  all_goals try norm_num [round2]
  all_goals try simp only [String.reduceEq, reduceCtorEq, reduceIte]
  all_goals try norm_num

theorem reach_exSt0 : Reachable exSt0 := by
  rw [← st0_eq]
  exact Reachable.init (["A","B","C"]) (genRooms 3) 100 (by decide) (by decide)
    (List.Perm.refl _) (by decide)

theorem reach_exStP1000 : Reachable exStP1000 := by
  have h := Reachable.propose exSt0 ("A") (some ("C")) (some ("1000")) reach_exSt0
    (by decide)
  rw [prop1000_eq] at h
  exact h

theorem reach_exStAcc : Reachable exStAcc := by
  have h := Reachable.respond exStP1000 ("C") (some ("A")) (some ("accept"))
    reach_exStP1000 (by decide)
  rw [respAcc_eq] at h
  exact h

theorem reach_exStPHalf : Reachable exStPHalf := by
  have h := Reachable.propose exSt0 ("A") (some ("C")) (some ("0.005")) reach_exSt0
    (by decide)
  rw [propHalf_eq] at h
  exact h

theorem reach_exStDec : Reachable exStDec := by
  have h := Reachable.respond exStPHalf ("C") (some ("A")) (some ("decline"))
    reach_exStPHalf (by decide)
  rw [respDec_eq] at h
  exact h

theorem reachC_exSt0 : ReachableC exSt0 := by
  rw [← st0_eq]
  exact ReachableC.init (["A","B","C"]) (genRooms 3) 100 (by decide) (by decide)
    (List.Perm.refl _) (by decide) ⟨10000, by norm_num⟩

end ConcreteEval

/-- **C1** (counterexample to the claim as stated): rent conservation to the
cent can fail.  From `initialize(100, [A,B,C])`, proposing at the sub-cent
price `0.005` and declining reaches a state whose prices sum to `99.99`
against a configured total rent of `100`. -/
theorem C1_cex :
    Reachable exStDec ∧ exStDec.total_rent = 100 ∧ sumPrices exStDec = 9999/100 ∧
      sumPrices exStDec ≠ exStDec.total_rent := by
  refine ⟨reach_exStDec, rfl, ?_, ?_⟩
  · norm_num [sumPrices, sumVals, valuesOf, exStDec, exSt0]
  · norm_num [sumPrices, sumVals, valuesOf, exStDec, exSt0]

/-- **C1** (amended): rent conservation holds exactly to the cent in every
state reachable when the configured total rent, and the price of every offer
ever proposed, is a whole number of cents: the sum of all unit prices always
equals the configured total rent. -/
theorem C1_rent_conservation (st : AppState) (h : ReachableC st) :
    sumPrices st = st.total_rent :=
  (reachableC_centInv st h).2.2.2

theorem C1_rent_conservation_witness : sumPrices exSt0 = exSt0.total_rent :=
  C1_rent_conservation exSt0 reachC_exSt0

/-- **C9** (counterexample to the claim as stated): `setSatisfaction` with a
value outside the enum does not fail with `InvalidStateValue`; the handler
silently ignores it and answers with a success redirect, leaving the state
unchanged. -/
theorem C9_cex :
    set_state exSt0 ("A") (some ("bogus")) = (none, exSt0) ∧
      ∀ e : HErr, set_state exSt0 ("A") (some ("bogus")) ≠ (some e, exSt0) := by
  constructor
  · rfl
  · intro e h
    have h1 := congrArg Prod.fst h
    have h0 : (set_state exSt0 ("A") (some ("bogus"))).1 = none := rfl
    rw [h0] at h1
    exact Option.noConfusion h1

/-- **C9** (amended): `setSatisfaction` overwrites the participant's state
when the value is `satisfied` or `unsatisfied` and changes nothing else; any
other value (or a missing one) is silently ignored — the call succeeds with
the state unchanged, and no error of any kind is reported. -/
theorem C9_set_state (st : AppState) (u : String) (s? : Option String) :
    (∀ s, s? = some s → (s = ("satisfied") ∨ s = ("unsatisfied")) →
      set_state st u s? = (none, { st with states := setD st.states u (some s) })) ∧
    (∀ s, s? = some s → ¬(s = ("satisfied") ∨ s = ("unsatisfied")) →
      set_state st u s? = (none, st)) ∧
    (s? = none → set_state st u s? = (none, st)) := by
  refine ⟨?_, ?_, ?_⟩
  · intro s hs hv
    subst hs
    unfold set_state
    dsimp only
    rw [if_pos hv]
  · intro s hs hv
    subst hs
    unfold set_state
    dsimp only
    rw [if_neg hv]
  · intro hs
    subst hs
    rfl

theorem C9_set_state_witness :
    set_state exSt0 ("A") (some ("satisfied")) =
      (none, { exSt0 with states := setD exSt0.states ("A") (some ("satisfied")) }) :=
  (C9_set_state exSt0 ("A") (some ("satisfied"))).1 ("satisfied") rfl (Or.inl rfl)

/-- **C10**: in `respondSwap`, any action value other than the exact string
`accept` — `decline`, a misspelling, an arbitrary string, or a missing
value — is processed by the decline branch: the call behaves exactly as an
explicit decline, and when a matching offer exists it is consumed with both
prices rewritten (no invalid-action error exists). -/
theorem C10_nonaccept_is_decline (st : AppState) (u : String) (p? a? : Option String)
    (ha : a? ≠ some ("accept")) :
    respond_swap st u p? a? = respond_swap st u p? (some ("decline")) ∧
    (∀ idx req proposer I J pI pJ,
      findFirstIdx (offerMatches u p?) st.pending = some idx →
      st.pending[idx]? = some req →
      p? = some proposer →
      lookupD st.assignment proposer = some I →
      lookupD st.assignment u = some J →
      lookupD st.prices I = some pI →
      lookupD st.prices J = some pJ →
      respond_swap st u p? a? =
        (none, declineUpdate st idx I J pI pJ req.offered_price)) := by
  constructor
  · exact respond_swap_action_irrelevant st u p? a? ha
  · intro idx req proposer I J pI pJ hf hreq hp hI hJ hpI hpJ
    exact respond_swap_decline_eq st u p? a? idx req proposer I J pI pJ
      hf hreq hp hI hJ hpI hpJ ha

theorem C10_nonaccept_is_decline_witness :
    respond_swap exStP1000 ("C") (some ("A")) (some ("declnie")) =
      (none, declineUpdate exStP1000 0 ("unit_1") ("unit_3") (3333/100) (1667/50) 1000) :=
  (C10_nonaccept_is_decline exStP1000 ("C") (some ("A")) (some ("declnie"))
      (by decide)).2
    0 ⟨("A"), ("C"), 1000⟩ ("A") ("unit_1") ("unit_3") (3333/100) (1667/50)
    rfl rfl rfl rfl rfl rfl rfl

/-- **C6**: offer lookup and consumption in `respondSwap`: with no matching
pending offer the call fails with `NoSuchOffer` and leaves the state exactly
unchanged; otherwise the selected offer is the first match in insertion
order, and whatever the action is, the surviving pending list is a sublist
of the original with that occurrence removed — the offer is consumed
unconditionally. -/
theorem C6_offer_lookup (st : AppState) (u : String) (p? a? : Option String) :
    (findFirstIdx (offerMatches u p?) st.pending = none →
      respond_swap st u p? a? = (some HErr.noSuchOffer, st)) ∧
    (∀ idx, findFirstIdx (offerMatches u p?) st.pending = some idx →
      (∃ req, st.pending[idx]? = some req ∧ offerMatches u p? req = true ∧
        (∀ j, j < idx → ∀ o, st.pending[j]? = some o → offerMatches u p? o = false)) ∧
      ((respond_swap st u p? a?).2.pending).Sublist (st.pending.eraseIdx idx)) := by
  constructor
  · exact respond_swap_none st u p? a?
  · intro idx hf
    obtain ⟨⟨x, hx, hpx⟩, hmin⟩ := findFirstIdx_spec _ _ _ hf
    exact ⟨⟨x, hx, hpx, hmin⟩, respond_pending_sublist st u p? a? idx hf⟩

theorem C6_offer_lookup_witness :
    respond_swap exSt0 ("C") (some ("A")) (some ("accept")) =
      (some HErr.noSuchOffer, exSt0) ∧
    ((respond_swap exStP1000 ("C") (some ("A")) (some ("accept"))).2.pending).Sublist
      (exStP1000.pending.eraseIdx 0) :=
  ⟨(C6_offer_lookup exSt0 ("C") (some ("A")) (some ("accept"))).1 rfl,
    ((C6_offer_lookup exStP1000 ("C") (some ("A")) (some ("accept"))).2 0 rfl).2⟩

/-- **C5** (counterexample to the claim as stated): a `proposeSwap` with the
price field absent does not default to the target's current price; the
handler rejects the request outright and records no offer. -/
theorem C5_cex :
    propose_swap exSt0 ("A") (some ("B")) none = (some HErr.invalidSwapRequest, exSt0) ∧
      (propose_swap exSt0 ("A") (some ("B")) none).2.pending = exSt0.pending :=
  ⟨rfl, rfl⟩

/-- **C5** (amended): for a valid distinct target, a blank price or a price
parsing to exactly zero resolves to the current price of the target's unit
(not 0, and subject to the final non-negativity check); a parsable positive
price is recorded as given; a negative or unparsable price fails with
`InvalidPrice`; an absent price fails with an invalid-request error instead
of defaulting. -/
theorem C5_price_resolution (st : AppState) (u target price_str : String) (pt : ℚ)
    (ht : target ∈ st.people) (htu : target ≠ u)
    (hpt : (lookupD st.assignment target).bind (lookupD st.prices) = some pt) :
    (trimChars price_str.toList = [] → 0 ≤ pt →
      propose_swap st u (some target) (some price_str) =
        (none, { st with pending := st.pending ++ [⟨u, target, pt⟩] })) ∧
    (∀ v, parseFloat price_str = some v → trimChars price_str.toList ≠ [] → v = 0 →
      0 ≤ pt →
      propose_swap st u (some target) (some price_str) =
        (none, { st with pending := st.pending ++ [⟨u, target, pt⟩] })) ∧
    (∀ v, parseFloat price_str = some v → trimChars price_str.toList ≠ [] → v < 0 →
      propose_swap st u (some target) (some price_str) = (some HErr.invalidPrice, st)) ∧
    (parseFloat price_str = none → trimChars price_str.toList ≠ [] →
      propose_swap st u (some target) (some price_str) = (some HErr.invalidPrice, st)) ∧
    (∀ v, parseFloat price_str = some v → 0 < v →
      propose_swap st u (some target) (some price_str) =
        (none, { st with pending := st.pending ++ [⟨u, target, v⟩] })) ∧
    propose_swap st u (some target) none = (some HErr.invalidSwapRequest, st) := by
  refine ⟨?_, ?_, ?_, ?_, ?_, rfl⟩
  · intro htrim hpt0
    unfold propose_swap resolveOffered
    dsimp only
    rw [if_pos ⟨ht, htu⟩, if_pos htrim, hpt]
    dsimp only
    rw [if_neg (not_lt.mpr hpt0)]
  · intro v hv htrim hv0 hpt0
    subst hv0
    unfold propose_swap resolveOffered
    dsimp only
    rw [if_pos ⟨ht, htu⟩, if_neg htrim, hv]
    dsimp only
    rw [if_pos rfl, hpt]
    dsimp only
    rw [if_neg (not_lt.mpr hpt0)]
  · intro v hv htrim hvneg
    unfold propose_swap resolveOffered
    dsimp only
    rw [if_pos ⟨ht, htu⟩, if_neg htrim, hv]
    dsimp only
    rw [if_neg (by intro e; rw [e] at hvneg; exact absurd hvneg (by norm_num))]
    dsimp only
    rw [if_pos hvneg]
  · intro hv htrim
    unfold propose_swap resolveOffered
    dsimp only
    rw [if_pos ⟨ht, htu⟩, if_neg htrim, hv]
  · intro v hv hvpos
    unfold propose_swap resolveOffered
    dsimp only
    rw [if_pos ⟨ht, htu⟩]
    by_cases htrim : trimChars price_str.toList = []
    · exfalso
      have hn : parseFloat price_str = none := by
        unfold parseFloat
        rw [htrim]
        rfl
      rw [hn] at hv
      exact Option.noConfusion hv
    · rw [if_neg htrim, hv]
      dsimp only
      rw [if_neg (by intro e; rw [e] at hvpos; exact absurd hvpos (by norm_num))]
      dsimp only
      rw [if_neg (not_lt.mpr (le_of_lt hvpos))]

theorem parseZero : parseFloat ("0") = some 0 := by
  have h : parseParts (trimChars (("0").toList)) = some (false, 0, 0, 0) := by decide
  rw [parseFloat, h]
  norm_num [ofParts, Rat.divInt_eq_div]

theorem C5_price_resolution_witness :
    propose_swap exSt0 ("A") (some ("B")) (some ("0")) =
      (none, { exSt0 with pending := exSt0.pending ++ [⟨("A"), ("B"), 3333/100⟩] }) :=
  (C5_price_resolution exSt0 ("A") ("B") ("0") (3333/100) (by decide) (by decide)
      rfl).2.1 0 parseZero (by decide) rfl (by norm_num)

/-- **C7** (counterexample to the claim as stated): prices can go negative.
Accepting an offer of 1000 against a pair whose combined price is 66.67
drives the proposer's old room to price −933.33 in a reachable state. -/
theorem C7_cex :
    Reachable exStAcc ∧ lookupD exStAcc.prices ("unit_1") = some (-93333/100) ∧
      ((-93333 : ℚ)/100) < 0 :=
  ⟨reach_exStAcc, rfl, by norm_num⟩

/-- **C7** (amended): the two prices written by a settlement (accept or
decline) are non-negative — and hence all prices stay non-negative —
provided the consumed offer's stored price is between 0 and the pair's
combined price `p_I + p_J`; an offer exceeding the pair total breaks
non-negativity, as the counterexample shows. -/
theorem C7_price_nonneg (st st' : AppState) (u proposer : String) (a? : Option String)
    (idx : ℕ) (req : Offer) (I J : String) (pI pJ : ℚ)
    (hf : findFirstIdx (offerMatches u (some proposer)) st.pending = some idx)
    (hreq : st.pending[idx]? = some req)
    (hI : lookupD st.assignment proposer = some I)
    (hJ : lookupD st.assignment u = some J)
    (hpI : lookupD st.prices I = some pI)
    (hpJ : lookupD st.prices J = some pJ)
    (hsucc : respond_swap st u (some proposer) a? = (none, st'))
    (hnneg : ∀ x ∈ valuesOf st.prices, 0 ≤ x)
    (hoff0 : 0 ≤ req.offered_price)
    (hoffb : req.offered_price ≤ pI + pJ) :
    ∀ x ∈ valuesOf st'.prices, 0 ≤ x := by
  obtain ⟨idx', req', proposer', I', J', pI', pJ', hf', hreq', hp', hI', hJ', hpI', hpJ',
    hcase⟩ := respond_swap_success_inv st u (some proposer) a? st' hsucc
  have eidx : idx = idx' := Option.some.inj (hf.symm.trans hf')
  subst eidx
  have ereq : req = req' := Option.some.inj (hreq.symm.trans hreq')
  subst ereq
  have eprop : proposer = proposer' := Option.some.inj hp'
  subst eprop
  have eI : I = I' := Option.some.inj (hI.symm.trans hI')
  subst eI
  have eJ : J = J' := Option.some.inj (hJ.symm.trans hJ')
  subst eJ
  have epI : pI = pI' := Option.some.inj (hpI.symm.trans hpI')
  subst epI
  have epJ : pJ = pJ' := Option.some.inj (hpJ.symm.trans hpJ')
  subst epJ
  have hgoal : ∀ x ∈ valuesOf (setD (setD st.prices J (round2 req.offered_price)) I
      (round2 (pI + pJ - req.offered_price))), 0 ≤ x := by
    intro x hx
    rcases valuesOf_setD_subset _ I _ x hx with he | he
    · rw [he]
      exact round2_nonneg (by linarith)
    · rcases valuesOf_setD_subset _ J _ x he with he2 | he2
      · rw [he2]
        exact round2_nonneg hoff0
      · exact hnneg x he2
  rcases hcase with ⟨_, he⟩ | ⟨_, he⟩
  · rw [he]
    unfold acceptUpdate
    exact hgoal
  · rw [he]
    unfold declineUpdate
    exact hgoal

theorem C7_price_nonneg_witness : 0 ≤ ((6666 : ℚ)/100) :=
  C7_price_nonneg exStPHalf exStDec ("C") ("A") (some ("decline")) 0
    ⟨("A"), ("C"), 1/200⟩ ("unit_1") ("unit_3") (3333/100) (1667/50)
    rfl rfl rfl rfl rfl rfl respDec_eq
    (by intro x hx; simp only [exStPHalf, exSt0, valuesOf, List.map_cons,
      List.mem_cons] at hx; rcases hx with h | h | h | h <;> first
        | (rw [h]; norm_num) | simp at h)
    (by norm_num) (by norm_num) ((6666 : ℚ)/100)
    (by simp [exStDec, exSt0, valuesOf])

/-- **C2**: accept settlement.  For every successful
`respondSwap(target, proposer, accept)` in a reachable state, with `I` the
proposer's pre-swap unit, `J` the target's, and `p_I`, `p_J` their pre-swap
prices: afterwards the proposer occupies `J` and the target `I`, `J` is
priced `round(offered, 2)`, `I` is priced `round(p_I + p_J - offered, 2)`,
and of the remaining pending offers exactly those whose proposer's or
target's pre-swap unit is `I` or `J` are removed. -/
theorem C2_accept_settlement (st st' : AppState) (u proposer : String) (idx : ℕ)
    (req : Offer) (I J : String) (pI pJ : ℚ)
    (hr : Reachable st)
    (hf : findFirstIdx (offerMatches u (some proposer)) st.pending = some idx)
    (hreq : st.pending[idx]? = some req)
    (hI : lookupD st.assignment proposer = some I)
    (hJ : lookupD st.assignment u = some J)
    (hpI : lookupD st.prices I = some pI)
    (hpJ : lookupD st.prices J = some pJ)
    (hsucc : respond_swap st u (some proposer) (some ("accept")) = (none, st')) :
    lookupD st'.assignment proposer = some J ∧
    lookupD st'.assignment u = some I ∧
    lookupD st'.prices J = some (round2 req.offered_price) ∧
    lookupD st'.prices I = some (round2 (pI + pJ - req.offered_price)) ∧
    st'.pending = (st.pending.eraseIdx idx).filter
      (fun r => !(involvesRooms st.assignment I J r)) ∧
    (∀ r ∈ st.pending.eraseIdx idx,
      r ∈ st'.pending ↔
        ¬(lookupD st.assignment r.proposer = some I ∨
          lookupD st.assignment r.proposer = some J ∨
          lookupD st.assignment r.target = some I ∨
          lookupD st.assignment r.target = some J)) := by
  have he := respond_swap_accept_eq st u (some proposer) (some ("accept")) idx req
    proposer I J pI pJ hf hreq rfl hI hJ hpI hpJ rfl
  rw [hsucc] at he
  have hst' : st' = acceptUpdate st idx proposer u I J pI pJ req.offered_price := by
    have h2 := congrArg Prod.snd he
    simpa using h2
  subst hst'
  obtain ⟨hmem, hprop, htarg⟩ := respond_offer_facts st u proposer idx req hf hreq
  obtain ⟨h1, h2, h3, h4, h5, h6, h7⟩ := reachable_structInv st hr
  have hne : proposer ≠ u := by
    have hw := h7 req hmem
    rw [hprop, htarg] at hw
    exact hw.2.2
  have hkndA : (keysOf st.assignment).Nodup := by rw [h4]; exact h2
  have hvndA : (valuesOf st.assignment).Nodup := h5.nodup_iff.mpr h3
  have hIJ : I ≠ J := fun e =>
    hne (lookupD_inj st.assignment proposer u I hkndA hvndA hI (e ▸ hJ))
  have hpk : proposer ∈ keysOf st.assignment := lookupD_mem_keys _ _ _ hI
  have huk : u ∈ keysOf st.assignment := lookupD_mem_keys _ _ _ hJ
  have hJk : J ∈ keysOf st.prices := lookupD_mem_keys _ _ _ hpJ
  have hIk : I ∈ keysOf st.prices := lookupD_mem_keys _ _ _ hpI
  have hbool : ∀ r : Offer, involvesRooms st.assignment I J r = true ↔
      (lookupD st.assignment r.proposer = some I ∨
        lookupD st.assignment r.proposer = some J ∨
        lookupD st.assignment r.target = some I ∨
        lookupD st.assignment r.target = some J) := by
    intro r
    unfold involvesRooms
    simp [Bool.or_eq_true, beq_iff_eq, or_assoc]
  unfold acceptUpdate
  refine ⟨?_, ?_, ?_, ?_, rfl, ?_⟩
  · dsimp only
    rw [lookupD_setD_ne _ u proposer I hne]
    exact lookupD_setD_self _ proposer J hpk
  · dsimp only
    exact lookupD_setD_self _ u I (by rw [keysOf_setD _ proposer J hpk]; exact huk)
  · dsimp only
    rw [lookupD_setD_ne _ I J _ (fun e => hIJ e.symm)]
    exact lookupD_setD_self _ J _ hJk
  · dsimp only
    exact lookupD_setD_self _ I _ (by rw [keysOf_setD _ J _ hJk]; exact hIk)
  · intro r hrm
    dsimp only
    rw [List.mem_filter]
    constructor
    · rintro ⟨_, hnb⟩
      rw [Bool.not_eq_true'] at hnb
      intro hd
      rw [← hbool r] at hd
      rw [hnb] at hd
      exact Bool.false_ne_true hd
    · intro hnd2
      refine ⟨hrm, ?_⟩
      rw [Bool.not_eq_true']
      cases hcv : involvesRooms st.assignment I J r with
      | false => rfl
      | true => exact absurd ((hbool r).mp hcv) hnd2

theorem C2_accept_settlement_witness :
    lookupD exStAcc.assignment ("A") = some ("unit_3") ∧
    lookupD exStAcc.assignment ("C") = some ("unit_1") ∧
    lookupD exStAcc.prices ("unit_3") = some (round2 (1000 : ℚ)) ∧
    lookupD exStAcc.prices ("unit_1") = some (round2 (3333/100 + 1667/50 - 1000)) ∧
    exStAcc.pending = (exStP1000.pending.eraseIdx 0).filter
      (fun r => !(involvesRooms exStP1000.assignment ("unit_1") ("unit_3") r)) ∧
    (∀ r ∈ exStP1000.pending.eraseIdx 0,
      r ∈ exStAcc.pending ↔
        ¬(lookupD exStP1000.assignment r.proposer = some ("unit_1") ∨
          lookupD exStP1000.assignment r.proposer = some ("unit_3") ∨
          lookupD exStP1000.assignment r.target = some ("unit_1") ∨
          lookupD exStP1000.assignment r.target = some ("unit_3"))) :=
  C2_accept_settlement exStP1000 exStAcc ("C") ("A") 0 ⟨("A"), ("C"), 1000⟩
    ("unit_1") ("unit_3") (3333/100) (1667/50) reach_exStP1000
    rfl rfl rfl rfl rfl rfl respAcc_eq

/-- **C3**: decline settlement.  For every successful
`respondSwap(target, proposer, decline)` in a reachable state the assignment
is unchanged, yet the prices are rewritten with the same conservation
identity — `J` (the target's own unit) becomes `round(offered, 2)` and `I`
(the proposer's unit) becomes `round(p_I + p_J - offered, 2)` — and no
pending offer other than the consumed one is removed. -/
theorem C3_decline_settlement (st st' : AppState) (u proposer : String) (idx : ℕ)
    (req : Offer) (I J : String) (pI pJ : ℚ)
    (hr : Reachable st)
    (hf : findFirstIdx (offerMatches u (some proposer)) st.pending = some idx)
    (hreq : st.pending[idx]? = some req)
    (hI : lookupD st.assignment proposer = some I)
    (hJ : lookupD st.assignment u = some J)
    (hpI : lookupD st.prices I = some pI)
    (hpJ : lookupD st.prices J = some pJ)
    (hsucc : respond_swap st u (some proposer) (some ("decline")) = (none, st')) :
    st'.assignment = st.assignment ∧
    lookupD st'.prices J = some (round2 req.offered_price) ∧
    lookupD st'.prices I = some (round2 (pI + pJ - req.offered_price)) ∧
    st'.pending = st.pending.eraseIdx idx := by
  have he := respond_swap_decline_eq st u (some proposer) (some ("decline")) idx req
    proposer I J pI pJ hf hreq rfl hI hJ hpI hpJ (by decide)
  rw [hsucc] at he
  have hst' : st' = declineUpdate st idx I J pI pJ req.offered_price := by
    have h2 := congrArg Prod.snd he
    simpa using h2
  subst hst'
  obtain ⟨hmem, hprop, htarg⟩ := respond_offer_facts st u proposer idx req hf hreq
  obtain ⟨h1, h2, h3, h4, h5, h6, h7⟩ := reachable_structInv st hr
  have hne : proposer ≠ u := by
    have hw := h7 req hmem
    rw [hprop, htarg] at hw
    exact hw.2.2
  have hkndA : (keysOf st.assignment).Nodup := by rw [h4]; exact h2
  have hvndA : (valuesOf st.assignment).Nodup := h5.nodup_iff.mpr h3
  have hIJ : I ≠ J := fun e =>
    hne (lookupD_inj st.assignment proposer u I hkndA hvndA hI (e ▸ hJ))
  have hJk : J ∈ keysOf st.prices := lookupD_mem_keys _ _ _ hpJ
  have hIk : I ∈ keysOf st.prices := lookupD_mem_keys _ _ _ hpI
  unfold declineUpdate
  refine ⟨rfl, ?_, ?_, rfl⟩
  · dsimp only
    rw [lookupD_setD_ne _ I J _ (fun e => hIJ e.symm)]
    exact lookupD_setD_self _ J _ hJk
  · dsimp only
    exact lookupD_setD_self _ I _ (by rw [keysOf_setD _ J _ hJk]; exact hIk)

theorem C3_decline_settlement_witness :
    exStDec.assignment = exStPHalf.assignment ∧
    lookupD exStDec.prices ("unit_3") = some (round2 ((1:ℚ)/200)) ∧
    lookupD exStDec.prices ("unit_1") = some (round2 (3333/100 + 1667/50 - 1/200)) ∧
    exStDec.pending = exStPHalf.pending.eraseIdx 0 :=
  C3_decline_settlement exStPHalf exStDec ("C") ("A") 0 ⟨("A"), ("C"), 1/200⟩
    ("unit_1") ("unit_3") (3333/100) (1667/50) reach_exStPHalf
    rfl rfl rfl rfl rfl rfl respDec_eq

/-- **C8**: assignment bijection.  In every reachable state the assignment
maps the participant list (duplicate-free) onto the room list
(duplicate-free): every participant has exactly one unit and every unit
exactly one occupant.  Moreover the assignment is mutated only by an
accepted swap: identity claiming, satisfaction updates, proposals, failed
responses and declined responses all leave it untouched, while a successful
accept exchanges exactly the two involved participants' units and no
others. -/
theorem C8_assignment_bijection (st : AppState) (hr : Reachable st) :
    (keysOf st.assignment = st.people ∧ st.people.Nodup ∧
      (valuesOf st.assignment).Perm st.rooms ∧ st.rooms.Nodup) ∧
    (∀ u?, (choose_user st u?).2.assignment = st.assignment) ∧
    (∀ u s?, (set_state st u s?).2.assignment = st.assignment) ∧
    (∀ u t? p?, (propose_swap st u t? p?).2.assignment = st.assignment) ∧
    (∀ u p? a? e st', respond_swap st u p? a? = (some e, st') →
      st'.assignment = st.assignment) ∧
    (∀ u p? a?, a? ≠ some ("accept") →
      (respond_swap st u p? a?).2.assignment = st.assignment) ∧
    (∀ u proposer st',
      respond_swap st u (some proposer) (some ("accept")) = (none, st') →
      ∃ I J, lookupD st.assignment proposer = some I ∧
        lookupD st.assignment u = some J ∧
        st'.assignment = setD (setD st.assignment proposer J) u I ∧
        lookupD st'.assignment proposer = some J ∧
        lookupD st'.assignment u = some I ∧
        (∀ x, x ≠ proposer → x ≠ u →
          lookupD st'.assignment x = lookupD st.assignment x)) := by
  obtain ⟨h1, h2, h3, h4, h5, h6, h7⟩ := reachable_structInv st hr
  refine ⟨⟨h4, h2, h5, h3⟩, ?_, ?_, ?_, ?_, ?_, ?_⟩
  · intro u?
    rcases choose_user_snd_cases st u? with he | ⟨u, _, he⟩ <;> rw [he]
  · intro u s?
    rcases set_state_snd_cases st u s? with he | ⟨s, _, _, he⟩ <;> rw [he]
  · intro u t? p?
    rcases propose_swap_snd_cases st u t? p? with he |
      ⟨t, ps, o, _, _, _, _, _, _, he⟩ <;> rw [he]
  · intro u p? a? e st' hh
    exact respond_swap_error_assignment st u p? a? e st' hh
  · intro u p? a? ha
    exact respond_swap_nonaccept_assignment st u p? a? ha
  · intro u proposer st' hsucc
    obtain ⟨idx, req, proposer', I, J, pI, pJ, hf, hreq, hp, hI, hJ, hpI, hpJ, hcase⟩ :=
      respond_swap_success_inv st u (some proposer) (some ("accept")) st' hsucc
    have ep : proposer = proposer' := Option.some.inj hp
    subst ep
    rcases hcase with ⟨_, he⟩ | ⟨hna, _⟩
    · subst he
      obtain ⟨hmem, hprop, htarg⟩ := respond_offer_facts st u proposer idx req hf hreq
      have hne : proposer ≠ u := by
        have hw := h7 req hmem
        rw [hprop, htarg] at hw
        exact hw.2.2
      have hpk : proposer ∈ keysOf st.assignment := lookupD_mem_keys _ _ _ hI
      have huk : u ∈ keysOf st.assignment := lookupD_mem_keys _ _ _ hJ
      refine ⟨I, J, hI, hJ, rfl, ?_, ?_, ?_⟩
      · unfold acceptUpdate
        dsimp only
        rw [lookupD_setD_ne _ u proposer I hne]
        exact lookupD_setD_self _ proposer J hpk
      · unfold acceptUpdate
        dsimp only
        exact lookupD_setD_self _ u I (by rw [keysOf_setD _ proposer J hpk]; exact huk)
      · intro x hxp hxu
        unfold acceptUpdate
        dsimp only
        rw [lookupD_setD_ne _ u x I hxu, lookupD_setD_ne _ proposer x J hxp]
    · exact absurd rfl hna

theorem C8_assignment_bijection_witness :
    keysOf exSt0.assignment = exSt0.people ∧ exSt0.people.Nodup ∧
      (valuesOf exSt0.assignment).Perm exSt0.rooms ∧ exSt0.rooms.Nodup :=
  (C8_assignment_bijection exSt0 reach_exSt0).1

/-- **C4**: initialization pricing.  `initialize(totalRent, participants)`
with `n` participants and a whole-cent total prices every generated unit at
`round(totalRent/n, 2)` except that the designated last room of the shuffle
additionally absorbs the rounding discrepancy
`round(totalRent - sum(prices), 2)`, so the prices sum to `totalRent`
exactly; in particular `initialize(100, [A,B,C])` yields prices
`{33.33, 33.33, 33.34}` summing to exactly `100.00`. -/
theorem C4_initialize_pricing (people shuffled : List String) (total : ℚ)
    (hne : people ≠ []) (hperm : shuffled.Perm (genRooms people.length))
    (hrnd : shuffled.Nodup) (hcent : isCents total) :
    sumPrices (init_allocation people shuffled total) = total ∧
    (∀ lastR, shuffled.getLast? = some lastR →
      (∀ r ∈ shuffled, r ≠ lastR →
        lookupD (init_allocation people shuffled total).prices r =
          some (round2 (total / (people.length : ℚ)))) ∧
      lookupD (init_allocation people shuffled total).prices lastR =
        some (round2 (round2 (total / (people.length : ℚ)) +
          round2 (total - sumVals (shuffled.map (fun r =>
            (r, round2 (total / (people.length : ℚ)))))))))  ∧
    (init_allocation (["A","B","C"]) (genRooms 3) 100).prices =
      [(("unit_1"), 3333/100), (("unit_2"), 3333/100), (("unit_3"), 1667/50)] ∧
    sumPrices (init_allocation (["A","B","C"]) (genRooms 3) 100) = 100 := by
  have hc := centInv_init people shuffled total hne hperm hrnd hcent
  refine ⟨hc.2.2.2, ?_, ?_, ?_⟩
  · intro lastR hlast
    unfold init_allocation
    dsimp only
    have hknd0 : (keysOf (shuffled.map (fun r =>
        (r, round2 (total / (people.length : ℚ)))))).Nodup := by
      rw [keysOf_map_pair]
      exact hrnd
    have hlr : lastR ∈ shuffled := getLast?_mem_self hlast
    have hlook0 : lookupD (shuffled.map (fun r =>
        (r, round2 (total / (people.length : ℚ))))) lastR =
        some (round2 (total / (people.length : ℚ))) :=
      lookupD_map_pair shuffled _ lastR hlr
    have hlk : lastR ∈ keysOf (shuffled.map (fun r =>
        (r, round2 (total / (people.length : ℚ))))) := by
      rw [keysOf_map_pair]
      exact hlr
    constructor
    · intro r hr hrne
      split
      · rw [hlast]
        dsimp only
        rw [lookupD_setD_ne _ lastR r _ hrne]
        exact lookupD_map_pair shuffled _ r hr
      · exact lookupD_map_pair shuffled _ r hr
    · split
      · rw [hlast]
        dsimp only
        rw [hlook0]
        exact lookupD_setD_self _ lastR _ hlk
      · next hguard =>
          have hdisc_cents : isCents (round2 (total - sumVals (shuffled.map (fun r =>
              (r, round2 (total / (people.length : ℚ))))))) := isCents_round2 _
          have hdz : round2 (total - sumVals (shuffled.map (fun r =>
              (r, round2 (total / (people.length : ℚ)))))) = 0 := by
            by_contra hne2
            exact hguard ((cents_guard_iff hdisc_cents).mpr hne2)
          rw [hdz, add_zero, round2_of_isCents (isCents_round2 _)]
          exact hlook0
  · rw [st0_eq]
    rfl
  · rw [st0_eq]
    norm_num [sumPrices, sumVals, valuesOf, exSt0]

theorem C4_initialize_pricing_witness :
    sumPrices (init_allocation (["A","B","C"]) (genRooms 3) 100) = 100 :=
  (C4_initialize_pricing (["A","B","C"]) (genRooms 3) 100 (by decide)
    (List.Perm.refl _) (by decide) ⟨10000, by norm_num⟩).1
